import Mathlib

/-!
Verification of the `shooter` capture engine.

This file gives a shallow embedding, in Lean, of the parts of the `shooter`
repository that its specification talks about:

* `shooter/actions.py` — the declarative page actions and their compilation
  to JavaScript source strings;
* `shooter/draw.py` — `ElementItem` and the CSS-selector synthesis
  (`get_css_selector`);
* `shooter/drivers/base.py` — the driver-session rotation state machine
  (`driver` property, `rotate_driver`), the readiness gate
  (`_normalize_hostname`, `load_page_and_check`, `load_page_with_checks`),
  the action-replay / screenshot entry points, and the recursive DOM
  traversal (`get_elements` / `traverse_dom`).

Modelling conventions:

* Python strings are embedded as `List Char` (`Str`); `str.strip()` is
  `pyStrip`, `str.replace` for the one-character pattern used in selector
  synthesis is a `List.map`, and the `"www."` replacement of
  `_normalize_hostname` is the recursive `normalize_hostname` below, which
  performs the same leftmost, non-overlapping, scan-once replacement of
  every occurrence that Python's `str.replace` performs.
* A live `WebElement` is embedded as a `DomNode`: a static tree carrying
  the attributes the traversal reads (`tag_name`, the `id` / `class`
  attributes, `is_displayed()`, the css `position` property, bounding
  rectangles) plus `ehash`, the content hash that
  `BaseScreenshooter.get_element_hash` derives from the element's
  serialized `outerHTML` (two elements with identical markup hash
  identically; the hash value itself is abstracted as an `Int` field).
  The tree is static during a traversal pass, so the
  `StaleElementReferenceException` handlers of `get_elements` never fire
  and are not represented.
* The float `pixel_ratio` is modelled as an integer scale `px`; none of
  the verified claims depend on fractional scaling.
* Exceptions are values of `PyError`, and Python's dict
  (`id_to_element`, insertion ordered) is an association list `StMap`.
-/

/-! ## Python string helpers -/

abbrev Str := List Char

/-- Leading/trailing-whitespace removal, as Python's `str.strip()`. -/
def pyStrip (s : Str) : Str :=
  ((s.dropWhile Char.isWhitespace).reverse.dropWhile Char.isWhitespace).reverse

/-- Boolean test that `p` is a leading segment of `s`. -/
def isPrefixB : Str → Str → Bool
  | [], _ => true
  | _ :: _, [] => false
  | a :: as, b :: bs => a == b && isPrefixB as bs

/-- Boolean test that `p` occurs contiguously somewhere inside `s`
(Python's `p in s`). -/
def containsSub (p : Str) : Str → Bool
  | [] => isPrefixB p []
  | b :: bs => isPrefixB p (b :: bs) || containsSub p bs

/-! ## `shooter/actions.py` -/

/-- Python truthiness of an `Optional[str]`: `None` and `""` are falsy. -/
def optTruthy : Option String → Bool
  | none => false
  | some s => !(s == "")

/-- How a Python f-string renders an `Optional[str]`: `None` prints as
the text `None`. -/
def pyStrOfOpt : Option String → String
  | none => "None"
  | some s => s

/-- `ClickElementAction`: click on the element chosen by the first truthy
predicate among id, class and query selector. -/
structure ClickElementAction where
  element_id : Option String := none
  element_class : Option String := none
  element_query_selector : Option String := none
deriving DecidableEq

/-- The pydantic `model_validator` of `ClickElementAction`: at least one of
the three predicate fields must not be `None` (truthiness is not
checked). -/
def ClickElementAction.validate_at_least_one_attribute_is_not_null
    (a : ClickElementAction) : Bool :=
  !(a.element_id == none && a.element_class == none
      && a.element_query_selector == none)

/-- `ClickElementAction.to_javascript`: branches on truthiness (not
nullness) of the predicate fields, in precedence order id, class,
query selector. -/
def ClickElementAction.to_javascript (a : ClickElementAction) : String :=
  if optTruthy a.element_id then
    "document.getElementById(\"" ++ pyStrOfOpt a.element_id ++ "\").click();"
  else if optTruthy a.element_class then
    "document.getElementsByClassName(\"" ++ pyStrOfOpt a.element_class
      ++ "\")[0].click();"
  else
    "document.querySelector(\"" ++ pyStrOfOpt a.element_query_selector
      ++ "\").click();"

/-- The closed tagged-variant family of actions of `shooter/actions.py`. -/
inductive BaseAction where
  | scroll_down (how_much : Int) (element_query_selector : Option String)
  | scroll_up (how_much : Int) (element_query_selector : Option String)
  | scroll_to_top
  | click_at (click_x : Int) (click_y : Int)
  | click_element (a : ClickElementAction)
deriving DecidableEq

/-- Per-variant `to_javascript` compilation. -/
def BaseAction.to_javascript : BaseAction → String
  | .scroll_down how_much none =>
      "window.scrollBy(0, " ++ toString how_much ++ ");"
  | .scroll_down how_much (some sel) =>
      "document.querySelector(\"" ++ sel ++ "\").scrollBy(0, "
        ++ toString how_much ++ ");"
  | .scroll_up how_much none =>
      "window.scrollBy(0, -" ++ toString how_much ++ ");"
  | .scroll_up how_much (some sel) =>
      "document.querySelector(\"" ++ sel ++ "\").scrollBy(0, -"
        ++ toString how_much ++ ");"
  | .scroll_to_top => "window.scrollTo(0, 0);"
  | .click_at x y =>
      "document.elementFromPoint(" ++ toString x ++ ", " ++ toString y
        ++ ").click();"
  | .click_element a => a.to_javascript

/-! ## Driver session (`BaseScreenshooter.__init__` / `driver` /
`rotate_driver`) -/

/-- A live browser connection, abstracted to the endpoint configuration it
was instantiated from (mirroring the `setup_driver` stub used by the
repository's own tests, which records its `proxy` keyword). -/
structure WebDriver where
  proxy : Option String
deriving DecidableEq

/-- The rotation state owned by a `BaseScreenshooter`: the list of lazy
per-endpoint driver factories (each remembered by its proxy connection
string), the rotation cursor, and the cached live connection. -/
structure ScreenshooterState where
  setup_driver_list : List (Option String)
  current_driver_index : Nat
  current_driver : Option WebDriver
deriving DecidableEq

/-- `__init__`: a non-list `proxy` argument (here: `None`) is wrapped into
a one-element list, so a session with no proxy has exactly one null
endpoint; the cursor starts at 0 with no live connection. -/
def initState (proxy : Option (List String)) : ScreenshooterState :=
  match proxy with
  | none => { setup_driver_list := [none], current_driver_index := 0,
              current_driver := none }
  | some l => { setup_driver_list := l.map some, current_driver_index := 0,
                current_driver := none }

/-- Exceptions raised by the embedded code paths. -/
inductive PyError where
  | noDriverRemaining
  | attributeError
  | runtimeError
  | timeoutException
deriving DecidableEq

/-- The `driver` property: raise `NoDriverRemainingError` once the cursor
has moved past the last endpoint, otherwise lazily instantiate and cache
the connection for the current cursor position. -/
def driverGet (st : ScreenshooterState) :
    Except PyError (WebDriver × ScreenshooterState) :=
  if h : st.current_driver_index < st.setup_driver_list.length then
    match st.current_driver with
    | some d => .ok (d, st)
    | none =>
      let d : WebDriver :=
        ⟨st.setup_driver_list.get ⟨st.current_driver_index, h⟩⟩
      .ok (d, { st with current_driver := some d })
  else
    .error .noDriverRemaining

/-- `rotate_driver`: `self._current_driver.quit()` — an `AttributeError`
when the cached handle is `None` — then advance the cursor and clear the
cached handle. -/
def rotate_driver (st : ScreenshooterState) :
    Except PyError ScreenshooterState :=
  match st.current_driver with
  | none => .error .attributeError
  | some _ =>
      .ok { st with current_driver_index := st.current_driver_index + 1,
                    current_driver := none }

/-! ## Readiness gate -/

/-- `_normalize_hostname`: Python's `hostname.replace("www.", "")`, i.e.
a single left-to-right scan deleting every non-overlapping occurrence of
`"www."`, not merely a leading one. -/
def normalize_hostname : Str → Str
  | 'w' :: 'w' :: 'w' :: '.' :: rest => normalize_hostname rest
  | c :: rest => c :: normalize_hostname rest
  | [] => []

/-- What the loaded page looks like through a given connection: the
hostname the browser ends up at, and whether the awaited CSS selector
eventually appears within the timeout. -/
structure PageEnv where
  current_hostname : Str
  selector_found : Bool

/-- `load_page_and_check` (sleeps elided): access the driver (which may
raise `NoDriverRemainingError`), navigate, optionally wait for the
selector (raising `TimeoutException`), then compare normalized hostnames,
raising `RuntimeError` on mismatch.  The second component is the
post-state: the lazily created connection stays cached even when the
attempt fails. -/
def load_page_and_check (env : WebDriver → PageEnv) (url_hostname : Str)
    (wait_for_selector : Option Str) (st : ScreenshooterState) :
    Except PyError Unit × ScreenshooterState :=
  match driverGet st with
  | .error e => (.error e, st)
  | .ok (d, st1) =>
    if wait_for_selector.isSome && !(env d).selector_found then
      (.error .timeoutException, st1)
    else
      let expected_hostname := normalize_hostname url_hostname
      let current_hostname := normalize_hostname (env d).current_hostname
      if expected_hostname ≠ current_hostname then
        (.error .runtimeError, st1)
      else
        (.ok (), st1)

/-- `load_page_with_checks`: retry loop.  `RuntimeError` (host mismatch)
and `TimeoutException` (selector timeout) trigger one `rotate_driver` and
a retry; `NoDriverRemainingError` breaks the loop returning `False`; a
clean attempt returns `True`.  An `AttributeError` from `rotate_driver`
would propagate (it never fires here, since a failed attempt has a live
connection cached). -/
def load_page_with_checks (env : WebDriver → PageEnv) (url_hostname : Str)
    (wait_for_selector : Option Str) (st : ScreenshooterState) :
    Except PyError (Bool × ScreenshooterState) :=
  match hl : load_page_and_check env url_hostname wait_for_selector st with
  | (.ok _, st1) => .ok (true, st1)
  | (.error .noDriverRemaining, st1) => .ok (false, st1)
  | (.error .attributeError, _) => .error .attributeError
  | (.error .runtimeError, st1) =>
    match hr : rotate_driver st1 with
    | .ok st2 => load_page_with_checks env url_hostname wait_for_selector st2
    | .error e => .error e
  | (.error .timeoutException, st1) =>
    match hr : rotate_driver st1 with
    | .ok st2 => load_page_with_checks env url_hostname wait_for_selector st2
    | .error e => .error e
termination_by st.setup_driver_list.length + 1 - st.current_driver_index
decreasing_by
  · have key : st1.setup_driver_list = st.setup_driver_list ∧
        st1.current_driver_index = st.current_driver_index ∧
        st.current_driver_index < st.setup_driver_list.length := by
      unfold load_page_and_check driverGet at hl
      by_cases hlt : st.current_driver_index < st.setup_driver_list.length
      · rw [dif_pos hlt] at hl
        rcases hcd : st.current_driver with _ | d <;> rw [hcd] at hl <;>
          simp only [] at hl <;> split_ifs at hl <;> simp at hl <;>
          (subst hl; exact ⟨rfl, rfl, hlt⟩)
      · rw [dif_neg hlt] at hl
        exact absurd (congrArg Prod.fst hl) (by simp)
    have key2 : st2 = { st1 with
        current_driver_index := st1.current_driver_index + 1,
        current_driver := none } := by
      unfold rotate_driver at hr
      rcases hcd : st1.current_driver with _ | d <;> rw [hcd] at hr
      · cases hr
      · cases hr; rfl
    subst key2
    simp only [key.1, key.2.1]
    omega
  · have key : st1.setup_driver_list = st.setup_driver_list ∧
        st1.current_driver_index = st.current_driver_index ∧
        st.current_driver_index < st.setup_driver_list.length := by
      unfold load_page_and_check driverGet at hl
      by_cases hlt : st.current_driver_index < st.setup_driver_list.length
      · rw [dif_pos hlt] at hl
        rcases hcd : st.current_driver with _ | d <;> rw [hcd] at hl <;>
          simp only [] at hl <;> split_ifs at hl <;> simp at hl <;>
          (subst hl; exact ⟨rfl, rfl, hlt⟩)
      · rw [dif_neg hlt] at hl
        exact absurd (congrArg Prod.fst hl) (by simp)
    have key2 : st2 = { st1 with
        current_driver_index := st1.current_driver_index + 1,
        current_driver := none } := by
      unfold rotate_driver at hr
      rcases hcd : st1.current_driver with _ | d <;> rw [hcd] at hr
      · cases hr
      · cases hr; rfl
    subst key2
    simp only [key.1, key.2.1]
    omega

/-! ## Action replay and screenshot entry points -/

/-- Observable driver interactions of the replay/screenshot code paths. -/
inductive DriverEvent where
  | execScript (script : String)
  | sleep
  | full_page_shot (file_path : String)
  | viewport_shot (file_path : String)
deriving DecidableEq

/-- The script run by `trigger_reflow`. -/
def trigger_reflow_script : String := "return document.body.offsetHeight;"

/-- `perform_actions`: for each action in order, execute its compiled
script, force a reflow, and pause. -/
def perform_actions (actions : List BaseAction) : List DriverEvent :=
  actions.flatMap fun a =>
    [.execScript a.to_javascript, .execScript trigger_reflow_script, .sleep]

/-- `take_full_page_screenshot`: when an action list is given, replay it
with an appended `ScrollToTopAction`, then take the full-page shot. -/
def take_full_page_screenshot (file_path : String)
    (actions : Option (List BaseAction)) : List DriverEvent :=
  (match actions with
   | some acts => perform_actions (acts ++ [.scroll_to_top])
   | none => []) ++ [.full_page_shot file_path]

/-- `take_viewport_screenshot`: when an action list is given, replay it
unchanged, then take the viewport shot. -/
def take_viewport_screenshot (file_path : String)
    (actions : Option (List BaseAction)) : List DriverEvent :=
  (match actions with
   | some acts => perform_actions acts
   | none => []) ++ [.viewport_shot file_path]

/-! ## `shooter/draw.py` — `ElementItem` and selector synthesis -/

/-- The element attributes that `get_css_selector` reads from a
`WebElement`: `tag_name`, and the `id` / `class` attributes (the empty
list standing for both a missing attribute and an empty one — Python
treats both as falsy here). -/
structure SElem where
  tag : Str
  idAttr : Str
  classAttr : Str
deriving DecidableEq

/-- A bounding rectangle as produced by `get_bounding_rect`. -/
structure Rect where
  left : Int
  top : Int
  width : Int
  height : Int
deriving DecidableEq

/-- A rendered DOM element: the attributes the traversal reads, the
content hash of its serialized markup (`get_element_hash`), its
`is_displayed()` visibility, its css `position`, its absolute and
viewport-relative rectangles, and its child elements. -/
inductive DomNode where
  | node (attrs : SElem) (ehash : Int) (visible : Bool) (cssPosition : Str)
      (rectAbs : Rect) (rectClient : Rect) (children : List DomNode)

def DomNode.attrs : DomNode → SElem
  | .node a _ _ _ _ _ _ => a

def DomNode.ehash : DomNode → Int
  | .node _ h _ _ _ _ _ => h

def DomNode.visible : DomNode → Bool
  | .node _ _ v _ _ _ _ => v

def DomNode.cssPosition : DomNode → Str
  | .node _ _ _ p _ _ _ => p

def DomNode.rectAbs : DomNode → Rect
  | .node _ _ _ _ ra _ _ => ra

def DomNode.rectClient : DomNode → Rect
  | .node _ _ _ _ _ rc _ => rc

def DomNode.children : DomNode → List DomNode
  | .node _ _ _ _ _ _ cs => cs

/-- The substring marking an nth-of-type qualifier. -/
def nthPat : Str := ":nth-of-type".toList

/-- The exact qualifier text appended for 1-based position `k`. -/
def nthOfTypeTok (k : Nat) : Str :=
  ":nth-of-type(".toList ++ (Nat.repr k).toList ++ ")".toList

/-- The `tag#id.class` part of the synthesized selector: id and class
selectors are appended only for truthy attributes, and spaces in the
class list become dots. -/
def combined_selector (el : SElem) : Str :=
  let class_attr :=
    if el.classAttr ≠ [] then
      el.classAttr.map (fun c => if c == ' ' then '.' else c)
    else []
  let id_selector := if el.idAttr ≠ [] then '#' :: el.idAttr else []
  let class_selector := if class_attr ≠ [] then '.' :: class_attr else []
  el.tag ++ id_selector ++ class_selector

/-- The number of same-tag siblings strictly before index `i`
(`sum(1 for sib in siblings[:element_index] if sib.tag_name ==
element_tag)`). -/
def same_tag_count (el : SElem) (siblings : List SElem) (i : Nat) : Nat :=
  ((siblings.take i).filter (fun sib => sib.tag == el.tag)).length

/-- `ElementItem.get_css_selector`: the root (index `None`) keeps the
combined selector; otherwise the parent selector is prefixed with a
descendant-combinator space, and an `:nth-of-type(k)` qualifier is
appended only when *more than one* preceding sibling shares the tag,
with `k` the count of preceding same-tag siblings plus one.  The result
is stripped as by `str.strip()`. -/
def get_css_selector (el : SElem) (element_index : Option Nat)
    (siblings : List SElem) (parent_selector : Str) : Str :=
  match element_index with
  | none => pyStrip (combined_selector el)
  | some i =>
    if same_tag_count el siblings i > 1 then
      let nth_type_index := same_tag_count el siblings i + 1
      pyStrip (parent_selector ++ ' ' ::
        (combined_selector el ++ nthOfTypeTok nth_type_index))
    else
      pyStrip (parent_selector ++ ' ' :: combined_selector el)

/-- One row of the element extraction output (`ElementItem`). -/
structure ElementItem where
  id : Int
  parent_id : Option Int
  bbox : Int × Int × Int × Int
  tag_name : Str
  label : Str
  position : Str
  is_visible : Bool
  css_selector : Str
deriving DecidableEq

/-- `ElementItem.from_web_element`: scale the rectangle by the pixel
ratio (modelled as the integer `px`), copy the tag as label, and
synthesize the selector. -/
def ElementItem.from_web_element (element : DomNode) (rect : Rect)
    (is_visible : Bool) (px : Int) (element_index : Option Nat)
    (siblings : List SElem) (parent_selector : Str) (element_id : Int)
    (parent_id : Option Int) : ElementItem :=
  { id := element_id
    parent_id := parent_id
    bbox := (rect.left * px, rect.top * px,
      (rect.left + rect.width) * px, (rect.top + rect.height) * px)
    tag_name := element.attrs.tag
    label := element.attrs.tag
    position := element.cssPosition
    is_visible := is_visible
    css_selector :=
      get_css_selector element.attrs element_index siblings parent_selector }

/-! ## DOM traversal (`BaseScreenshooter.get_elements`) -/

/-- `get_bounding_rect`: absolute document coordinates for a full-page
capture, viewport-relative ones otherwise. -/
def get_bounding_rect (e : DomNode) (absolute : Bool) : Rect :=
  if absolute then e.rectAbs else e.rectClient

/-- The `id_to_element` dict: an insertion-ordered association list from
content hash to record. -/
abbrev StMap := List (Int × ElementItem)

/-- Dict lookup. -/
def lookupA (st : StMap) (k : Int) : Option ElementItem :=
  (st.find? (fun p => p.1 == k)).map (·.2)

/-- The dict's key list, in insertion order. -/
def keysOf (st : StMap) : List Int := st.map (·.1)

/-- The in-place mutation `child_item.parent_id = element_id`: the child's
record (the entry with the child's hash) is updated inside the dict. -/
def setParent (st : StMap) (k : Int) (ph : Int) : StMap :=
  st.map fun p => if p.1 == k then (p.1, { p.2 with parent_id := some ph }) else p

mutual
/-- `traverse_dom`: return the cached record on a hash revisit; skip an
invisible node (without expanding it) unless invisible capture was
requested; otherwise emit the record, then recurse into the children,
linking each processed child's `parent_id` to this node's hash.  Only the
hash (all a caller uses) of the produced record is returned.  (The node is
destructured up front so the recursion is structural.) -/
def traverse_dom (cap full : Bool) (px : Int) (e : DomNode)
    (parent_selector : Str) (siblings : Option (List DomNode))
    (index : Option Nat) (st : StMap) : Option Int × StMap :=
  match e with
  | .node attrs ehash visible cssPosition rectAbs rectClient children =>
    let element_id := ehash
    match lookupA st element_id with
    | some _ => (some element_id, st)
    | none =>
      let is_visible := visible
      if ¬(is_visible ∨ cap) then (none, st)
      else
        let rect := get_bounding_rect
          (.node attrs ehash visible cssPosition rectAbs rectClient children) full
        let item := ElementItem.from_web_element
          (.node attrs ehash visible cssPosition rectAbs rectClient children)
          rect is_visible px index
          ((siblings.getD []).map DomNode.attrs) parent_selector element_id none
        let st1 := st ++ [(element_id, item)]
        let st2 := traverse_children cap full px children item.css_selector
          children 0 element_id st1
        (some element_id, st2)

/-- The `for child_index, child in enumerate(children)` loop of
`traverse_dom`. -/
def traverse_children (cap full : Bool) (px : Int) (cs : List DomNode)
    (sel : Str) (siblings : List DomNode) (i : Nat) (ph : Int)
    (st : StMap) : StMap :=
  match cs with
  | [] => st
  | c :: rest =>
    let r := traverse_dom cap full px c sel (some siblings) (some i) st
    let st2 := match r.1 with
      | some cid => setParent r.2 cid ph
      | none => r.2
    traverse_children cap full px rest sel siblings (i + 1) ph st2
end

/-- `get_elements`: traverse from the root (empty output when there is no
root) and return the dict's values in insertion order. -/
def get_elements (full_page_screenshot : Bool) (px : Int)
    (capture_invisible_elements : Bool) (root_element : Option DomNode) :
    List ElementItem :=
  match root_element with
  | none => []
  | some root =>
    ((traverse_dom capture_invisible_elements full_page_screenshot px root
        [] none none []).2).map (·.2)

/-! ## A state-free description of one traversal pass

`emitRun` lists, in emission order, the `(hash, record)` pairs a traversal
of a subtree produces when no hash is ever revisited; it is related to
`traverse_dom` below (`traverse_dom_char`) under that freshness
assumption. -/

mutual
/-- The entries one subtree contributes: its own record (with
`parent_id` still unset — the caller patches it) followed by its
children's. -/
def emitRun (cap full : Bool) (px : Int) (e : DomNode) (parent_selector : Str)
    (siblings : Option (List DomNode)) (index : Option Nat) : StMap :=
  match e with
  | .node attrs ehash visible cssPosition rectAbs rectClient children =>
    if ¬(visible ∨ cap) then []
    else
      let item := ElementItem.from_web_element
        (.node attrs ehash visible cssPosition rectAbs rectClient children)
        (get_bounding_rect
          (.node attrs ehash visible cssPosition rectAbs rectClient children)
          full)
        visible px index ((siblings.getD []).map DomNode.attrs)
        parent_selector ehash none
      (ehash, item) ::
        emitChildren cap full px children item.css_selector children 0 ehash

/-- The children's entries, each child's own record patched with its
parent's hash. -/
def emitChildren (cap full : Bool) (px : Int) (cs : List DomNode) (sel : Str)
    (siblings : List DomNode) (i : Nat) (ph : Int) : StMap :=
  match cs with
  | [] => []
  | c :: rest =>
    (match emitRun cap full px c sel (some siblings) (some i) with
     | [] => []
     | (k, it) :: tl => (k, { it with parent_id := some ph }) :: tl)
      ++ emitChildren cap full px rest sel siblings (i + 1) ph
end

mutual
/-- All content hashes occurring in a subtree, in preorder. -/
def domHashes : DomNode → List Int
  | .node _ ehash _ _ _ _ children => ehash :: domHashesList children

def domHashesList : List DomNode → List Int
  | [] => []
  | c :: rest => domHashes c ++ domHashesList rest
end

mutual
/-- All nodes of a subtree, in preorder. -/
def subNodes : DomNode → List DomNode
  | .node attrs ehash visible cssPosition rectAbs rectClient children =>
    .node attrs ehash visible cssPosition rectAbs rectClient children
      :: subNodesList children

def subNodesList : List DomNode → List DomNode
  | [] => []
  | c :: rest => subNodes c ++ subNodesList rest
end

/-! ## Derived definitions used by the claims -/

/-- `k` rounds of "access the driver, then rotate" starting from `st`,
as exercised by the repository's rotation tests. -/
def accessRotatePairs (k : Nat) (st : ScreenshooterState) :
    Except PyError ScreenshooterState :=
  match k with
  | 0 => .ok st
  | k + 1 =>
    match driverGet st with
    | .error e => .error e
    | .ok (_, st1) =>
      match rotate_driver st1 with
      | .error e => .error e
      | .ok st2 => accessRotatePairs k st2

/-- Referential integrity of the traversal dict: every stored record's
parent identity, when set, is a key of the dict. -/
def IntegOk (st : StMap) : Prop :=
  ∀ p ∈ st, ∀ pid, p.2.parent_id = some pid → pid ∈ keysOf st

/-- Every stored record's `id` field is its own key. -/
def KeyId (st : StMap) : Prop :=
  ∀ p ∈ st, p.2.id = p.1

/-! ## Concrete inputs used by counterexamples and witnesses -/

/-- A bare `div` element's attributes. -/
def divAttrs : SElem := ⟨ "div".toList, [], [] ⟩

/-- The parent-selector prefix used in the selector examples. -/
def bodySel : Str := "body".toList

def sibs2 : List SElem := [divAttrs, divAttrs]

def sibs3 : List SElem := [divAttrs, divAttrs, divAttrs]

def rect0 : Rect := ⟨0, 0, 0, 0⟩

def posStatic : Str := "static".toList

/-- A visible leaf with hash 3. -/
def exGrand : DomNode := .node divAttrs 3 true posStatic rect0 rect0 []

/-- An invisible node with hash 2 whose only child is visible. -/
def exMid : DomNode := .node divAttrs 2 false posStatic rect0 rect0 [exGrand]

/-- A visible root with hash 1, an invisible child and a visible
grandchild. -/
def exRoot : DomNode := .node divAttrs 1 true posStatic rect0 rect0 [exMid]

/-- A visible leaf with hash 2. -/
def exLeaf2 : DomNode := .node divAttrs 2 true posStatic rect0 rect0 []

/-- A root whose two children have identical markup, hence equal hashes:
hash 2 is reachable along two structurally distinct paths. -/
def exDupRoot : DomNode := .node divAttrs 1 true posStatic rect0 rect0 [exLeaf2, exLeaf2]

/-- A loaded-page environment: every connection ends up on
`example.com` and the awaited selector always appears. -/
def hostEx : Str := "example.com".toList

def hostEvil : Str := "evil.com".toList

def env0 : WebDriver → PageEnv := fun _ => ⟨hostEx, true⟩

/-- The normalization counterexample hostname: `www.` occurs inside, not
as a prefix. -/
def cx7 : Str := "x.www.com".toList

def wwwPat : Str := "www.".toList

def emptyS : String := ""

def clsS : String := "the-class"

/-- A click action whose only non-null predicate is the *empty* id. -/
def ceEmptyId : ClickElementAction := ⟨some emptyS, none, none⟩

/-- A click action with an empty id and a non-null class. -/
def ceEmptyIdCls : ClickElementAction := ⟨some emptyS, some clsS, none⟩

/-! ## Helper lemmas about the string embedding -/

theorem isPrefixB_iff (p s : Str) : isPrefixB p s = true ↔ ∃ v, s = p ++ v := by
  induction p generalizing s with
  | nil => simp [isPrefixB]
  | cons a as ih =>
    cases s with
    | nil =>
      constructor
      · intro h
        exact Bool.noConfusion h
      · rintro ⟨v, h⟩
        cases h
    | cons b bs =>
      simp only [isPrefixB, Bool.and_eq_true, beq_iff_eq, ih, List.cons_append,
        List.cons.injEq]
      constructor
      · rintro ⟨rfl, v, rfl⟩
        exact ⟨v, rfl, rfl⟩
      · rintro ⟨v, rfl, rfl⟩
        exact ⟨rfl, v, rfl⟩

theorem containsSub_iff (p s : Str) :
    containsSub p s = true ↔ ∃ u v, s = u ++ p ++ v := by
  induction s with
  | nil =>
    simp only [containsSub, isPrefixB_iff]
    constructor
    · rintro ⟨v, h⟩
      exact ⟨[], v, by simpa using h⟩
    · rintro ⟨u, v, h⟩
      rw [List.append_assoc] at h
      rcases List.append_eq_nil.1 h.symm with ⟨rfl, h2⟩
      exact ⟨v, by simpa using h⟩
  | cons b bs ih =>
    simp only [containsSub, Bool.or_eq_true, isPrefixB_iff, ih]
    constructor
    · rintro (⟨v, hv⟩ | ⟨u, v, hv⟩)
      · exact ⟨[], v, by simpa using hv⟩
      · exact ⟨b :: u, v, by simpa using hv⟩
    · rintro ⟨u, v, h⟩
      cases u with
      | nil => exact Or.inl ⟨v, by simpa using h⟩
      | cons x xs =>
        rw [List.cons_append, List.cons_append] at h
        injection h with h1 h2
        exact Or.inr ⟨xs, v, h2⟩

theorem containsSub_mono3 (p a b c : Str) (h : containsSub p b = true) :
    containsSub p (a ++ b ++ c) = true := by
  obtain ⟨u, v, rfl⟩ := (containsSub_iff p b).1 h
  refine (containsSub_iff p _).2 ⟨a ++ u, v ++ c, by simp [List.append_assoc]⟩

theorem containsSub_split {p a b : Str} {c : Char} (hc : c ∉ p)
    (h : containsSub p (a ++ c :: b) = true) :
    containsSub p a = true ∨ containsSub p b = true := by
  obtain ⟨u, v, he⟩ := (containsSub_iff p _).1 h
  rw [List.append_assoc] at he
  rcases List.append_eq_append_iff.1 he with ⟨w, hw1, hw2⟩ | ⟨w, hw1, hw2⟩
  · -- u = a ++ w and c :: b = w ++ (p ++ v)
    cases w with
    | nil =>
      rw [List.nil_append] at hw2
      cases p with
      | nil => exact Or.inr ((containsSub_iff _ _).2 ⟨[], b, by simp⟩)
      | cons ph pt =>
        rw [List.cons_append] at hw2
        injection hw2 with h1 h2
        exact absurd (h1 ▸ List.mem_cons_self ph pt) hc
    | cons x xs =>
      rw [List.cons_append] at hw2
      injection hw2 with h1 h2
      exact Or.inr ((containsSub_iff _ _).2 ⟨xs, v, by rw [h2, List.append_assoc]⟩)
  · -- a = u ++ w and p ++ v = w ++ (c :: b)
    rcases List.append_eq_append_iff.1 hw2 with ⟨y, hy1, hy2⟩ | ⟨y, hy1, hy2⟩
    · -- w = p ++ y
      exact Or.inl ((containsSub_iff _ _).2 ⟨u, y, by rw [hw1, hy1, List.append_assoc]⟩)
    · -- p = w ++ y and c :: b = y ++ v
      cases y with
      | nil =>
        rw [List.append_nil] at hy1
        exact Or.inl ((containsSub_iff _ _).2 ⟨u, [], by rw [hw1, hy1, List.append_nil]⟩)
      | cons z zs =>
        rw [List.cons_append] at hy2
        injection hy2 with h1 h2
        subst h1
        exact absurd (hy1 ▸ List.mem_append_right w (List.mem_cons_self c zs)) hc

theorem pyStrip_decomp (s : Str) : ∃ u v, s = u ++ pyStrip s ++ v := by
  refine ⟨s.takeWhile Char.isWhitespace,
    ((s.dropWhile Char.isWhitespace).reverse.takeWhile Char.isWhitespace).reverse, ?_⟩
  unfold pyStrip
  conv_lhs => rw [← List.takeWhile_append_dropWhile (p := Char.isWhitespace) (l := s)]
  rw [List.append_assoc]
  congr 1
  conv_lhs =>
    rw [← List.reverse_reverse (s.dropWhile Char.isWhitespace),
      ← List.takeWhile_append_dropWhile (p := Char.isWhitespace)
        (l := (s.dropWhile Char.isWhitespace).reverse)]
  rw [List.reverse_append]

theorem containsSub_pyStrip {p s : Str} (h : containsSub p (pyStrip s) = true) :
    containsSub p s = true := by
  obtain ⟨u, v, hd⟩ := pyStrip_decomp s
  rw [hd]
  exact containsSub_mono3 p u (pyStrip s) v h

theorem pyStrip_append_keep (x y : Str) {c d : Char} (hc : c.isWhitespace = false)
    (hd : d.isWhitespace = false) :
    pyStrip (x ++ c :: (y ++ [d]))
      = x.dropWhile Char.isWhitespace ++ c :: (y ++ [d]) := by
  have h1 : (x ++ c :: (y ++ [d])).dropWhile Char.isWhitespace
      = x.dropWhile Char.isWhitespace ++ c :: (y ++ [d]) := by
    rw [List.dropWhile_append]
    by_cases hx : (x.dropWhile Char.isWhitespace).isEmpty
    · rw [if_pos hx]
      have hx' : x.dropWhile Char.isWhitespace = [] := by
        simpa [List.isEmpty_iff] using hx
      rw [hx', List.nil_append, List.dropWhile_cons, hc]
      simp
    · rw [if_neg hx]
  unfold pyStrip
  rw [h1, List.reverse_append, List.reverse_cons, List.reverse_append]
  have h2 : ([d].reverse ++ y.reverse ++ [c])
        ++ (x.dropWhile Char.isWhitespace).reverse
      = d :: (y.reverse ++ [c] ++ (x.dropWhile Char.isWhitespace).reverse) := by
    simp
  rw [h2, List.dropWhile_cons, hd]
  simp [List.append_assoc]

theorem containsSub_self (p : Str) : containsSub p p = true :=
  (containsSub_iff p p).2 ⟨[], [], by simp⟩

theorem nthOfTypeTok_decomp (k : Nat) :
    nthOfTypeTok k
      = ':' :: (("nth-of-type(".toList ++ (Nat.repr k).toList) ++ [')']) := by
  unfold nthOfTypeTok
  rw [(by decide : ":nth-of-type(".toList = ':' :: "nth-of-type(".toList),
    (by decide : ")".toList = [')'])]
  simp

/-- Claim C1 (corrected form): in `get_css_selector`, an
`:nth-of-type(k)` qualifier (`k` = number of preceding same-tag siblings
plus one) is appended exactly when *more than one* preceding sibling
shares the tag — i.e. for the third and later same-tag siblings; the
second same-tag sibling, the first, and siblings that are the sole
element of their tag get no qualifier (provided neither the parent
selector prefix nor the element's own `tag#id.class` text already
contains the qualifier substring). -/
theorem claim_C1_amended (el : SElem) (i : Nat) (siblings : List SElem)
    (psel : Str) :
    (2 ≤ same_tag_count el siblings i →
      containsSub (nthOfTypeTok (same_tag_count el siblings i + 1))
        (get_css_selector el (some i) siblings psel) = true) ∧
    (same_tag_count el siblings i ≤ 1 →
      containsSub nthPat psel = false →
      containsSub nthPat (combined_selector el) = false →
      containsSub nthPat (get_css_selector el (some i) siblings psel) = false) := by
  constructor
  · intro h2
    simp only [get_css_selector]
    rw [if_pos (by omega : same_tag_count el siblings i > 1)]
    have hsh : psel ++ ' ' ::
        (combined_selector el ++ nthOfTypeTok (same_tag_count el siblings i + 1))
        = (psel ++ ' ' :: combined_selector el)
          ++ nthOfTypeTok (same_tag_count el siblings i + 1) := by
      simp
    rw [hsh, nthOfTypeTok_decomp,
      pyStrip_append_keep _ _ (by decide) (by decide),
      ← nthOfTypeTok_decomp]
    have := containsSub_mono3
      (nthOfTypeTok (same_tag_count el siblings i + 1))
      ((psel ++ ' ' :: combined_selector el).dropWhile Char.isWhitespace)
      (nthOfTypeTok (same_tag_count el siblings i + 1)) []
      (containsSub_self _)
    simpa using this
  · intro h1 hp hcmb
    simp only [get_css_selector]
    rw [if_neg (by omega : ¬ same_tag_count el siblings i > 1)]
    by_contra hcon
    rw [Bool.not_eq_false] at hcon
    have h3 := containsSub_pyStrip hcon
    rcases containsSub_split (by decide : ' ' ∉ nthPat) h3 with h4 | h4
    · rw [hp] at h4
      exact Bool.noConfusion h4
    · rw [hcmb] at h4
      exact Bool.noConfusion h4

/-- Claim C1, counterexample to the literal statement: with two `div`
siblings, the second same-tag sibling (`k = 2`) has exactly one preceding
same-tag sibling, so the code appends no `:nth-of-type(2)` — its selector
is plain `body div`. -/
theorem claim_C1_counterexample :
    same_tag_count divAttrs sibs2 1 = 1 ∧
    sibs2.get? 1 = some divAttrs ∧
    get_css_selector divAttrs (some 1) sibs2 bodySel = "body div".toList ∧
    containsSub (nthOfTypeTok 2)
      (get_css_selector divAttrs (some 1) sibs2 bodySel) = false := by
  refine ⟨by decide, by decide, by decide, by decide⟩

/-- Claim C1, witness: the third of three `div` siblings does get
`:nth-of-type(3)`, and the second of two gets no qualifier. -/
theorem claim_C1_witness :
    containsSub (nthOfTypeTok (same_tag_count divAttrs sibs3 2 + 1))
        (get_css_selector divAttrs (some 2) sibs3 bodySel) = true ∧
    containsSub nthPat (get_css_selector divAttrs (some 1) sibs2 bodySel) = false :=
  ⟨(claim_C1_amended divAttrs 2 sibs3 bodySel).1 (by decide),
   (claim_C1_amended divAttrs 1 sibs2 bodySel).2 (by decide) (by decide) (by decide)⟩

/-! ## Hostname normalization and the readiness gate -/

theorem normalize_hostname_no_occurrence :
    ∀ (n : Nat) (s : Str), s.length ≤ n → containsSub wwwPat s = false →
      normalize_hostname s = s := by
  intro n
  induction n with
  | zero =>
    intro s hn _
    have : s = [] := List.eq_nil_of_length_eq_zero (by omega)
    subst this
    rfl
  | succ n ih =>
    intro s hn hc
    rw [normalize_hostname.eq_def]
    split
    · -- s = 'w' :: 'w' :: 'w' :: '.' :: rest: contradicts absence of "www."
      rename_i rest
      exfalso
      have : containsSub wwwPat ('w' :: 'w' :: 'w' :: '.' :: rest) = true := by
        have hpre : isPrefixB wwwPat ('w' :: 'w' :: 'w' :: '.' :: rest) = true :=
          (isPrefixB_iff _ _).2 ⟨rest, rfl⟩
        unfold containsSub
        rw [hpre]
        rfl
      rw [this] at hc
      exact Bool.noConfusion hc
    · rename_i c rest _
      have hrest : containsSub wwwPat rest = false := by
        have := congrArg (containsSub wwwPat) (rfl : c :: rest = c :: rest)
        unfold containsSub at hc
        exact (Bool.or_eq_false_iff.1 hc).2
      have hlen : rest.length ≤ n := by
        simp only [List.length_cons] at hn
        omega
      rw [ih rest hlen hrest]
    · rfl

/-- Claim C7 (corrected form): `_normalize_hostname` removes *every*
occurrence of the substring `www.` (leftmost first, non-overlapping), not
only a leading prefix — a hostname with no occurrence is unchanged, a
leading occurrence is dropped, and the gate raises its host-mismatch
`RuntimeError` exactly when the two normalized hostnames differ. -/
theorem claim_C7_amended :
    (∀ s : Str, normalize_hostname (wwwPat ++ s) = normalize_hostname s) ∧
    (∀ s : Str, containsSub wwwPat s = false → normalize_hostname s = s) ∧
    (∀ (env : WebDriver → PageEnv) (url_hostname : Str)
        (wait_for_selector : Option Str) (st : ScreenshooterState)
        (d : WebDriver) (st1 : ScreenshooterState),
      driverGet st = .ok (d, st1) →
      (wait_for_selector.isSome && !(env d).selector_found) = false →
      ((load_page_and_check env url_hostname wait_for_selector st).1
          = .error .runtimeError ↔
        normalize_hostname url_hostname
          ≠ normalize_hostname (env d).current_hostname)) := by
  refine ⟨?_, ?_, ?_⟩
  · intro s
    have hw : wwwPat ++ s = 'w' :: 'w' :: 'w' :: '.' :: s := by
      rw [(by decide : wwwPat = ['w', 'w', 'w', '.'])]
      rfl
    rw [hw]
    rw [normalize_hostname]
  · intro s hc
    exact normalize_hostname_no_occurrence s.length s le_rfl hc
  · intro env url_hostname wait_for_selector st d st1 hd hsel
    unfold load_page_and_check
    rw [hd]
    simp only [hsel]
    rw [if_neg (by simp : ¬(false = true))]
    split_ifs with hne
    · simp [hne]
    · simp [hne]

/-- Claim C7, counterexample to the literal statement: `x.www.com` does
not start with `www.`, yet `_normalize_hostname` rewrites it to `x.com`
instead of leaving it unchanged — the inner occurrence is removed too. -/
theorem claim_C7_counterexample :
    isPrefixB wwwPat cx7 = false ∧
    normalize_hostname cx7 = "x.com".toList ∧
    normalize_hostname cx7 ≠ cx7 := by
  refine ⟨by decide, by decide, by decide⟩

/-- Claim C7, witness: a hostname without `www.` is unchanged, and a
mismatching load raises the gate's `RuntimeError`. -/
theorem claim_C7_witness :
    normalize_hostname hostEx = hostEx ∧
    (load_page_and_check env0 hostEvil none (initState none)).1
      = .error .runtimeError :=
  ⟨claim_C7_amended.2.1 hostEx (by decide),
   (claim_C7_amended.2.2 env0 hostEvil none (initState none) ⟨none⟩
      ⟨[none], 0, some ⟨none⟩⟩ rfl (by decide)).2
     (by decide)⟩

/-! ## Screenshot entry points and actions -/

/-- Claim C8: with an explicit action list, full-page capture performs
exactly those actions in order followed by one appended scroll-to-top
(each action compiling to its script, followed by the reflow read and the
pause), while viewport capture performs exactly the given actions; with
no action list, neither performs any action before its shot. -/
theorem claim_C8 (fp : String) (acts : List BaseAction) :
    take_full_page_screenshot fp (some acts)
      = perform_actions acts
        ++ [DriverEvent.execScript BaseAction.scroll_to_top.to_javascript,
            DriverEvent.execScript trigger_reflow_script, DriverEvent.sleep,
            DriverEvent.full_page_shot fp] ∧
    take_viewport_screenshot fp (some acts)
      = perform_actions acts ++ [DriverEvent.viewport_shot fp] ∧
    take_full_page_screenshot fp none = [DriverEvent.full_page_shot fp] ∧
    take_viewport_screenshot fp none = [DriverEvent.viewport_shot fp] := by
  refine ⟨?_, rfl, rfl, rfl⟩
  simp [take_full_page_screenshot, perform_actions]

/-- Claim C9: constructing `ClickElementAction` with an *empty* id and no
other predicate passes the at-least-one-predicate validation (the field
is non-null), yet `to_javascript` skips the id branch (empty string is
falsy) and, with no other predicate, falls through to the query-selector
script interpolating the null selector as the text `None`; with an empty
id and a non-null class, the class branch is used. -/
theorem claim_C9 :
    ceEmptyId.validate_at_least_one_attribute_is_not_null = true ∧
    ceEmptyId.to_javascript = "document.querySelector(\"None\").click();" ∧
    ceEmptyIdCls.to_javascript
      = "document.getElementsByClassName(\"the-class\")[0].click();" :=
  ⟨rfl, rfl, rfl⟩

/-! ## Rotation state machine -/

/-- Claim C10: `rotate_driver` with no cached connection (the state both
before any driver access and immediately after a rotation) invokes
`quit()` on `None` and fails with `AttributeError`; with a live
connection it tears it down, advances the cursor by one, and clears the
cached handle — so a second consecutive rotation without an intervening
access also fails with `AttributeError`. -/
theorem claim_C10 (l : List (Option String)) (i : Nat) (d : WebDriver)
    (p : Option (List String)) :
    rotate_driver ⟨l, i, none⟩ = .error .attributeError ∧
    (initState p).current_driver = none ∧
    rotate_driver ⟨l, i, some d⟩ = .ok ⟨l, i + 1, none⟩ ∧
    (rotate_driver ⟨l, i, some d⟩).bind rotate_driver
      = .error .attributeError := by
  refine ⟨rfl, ?_, rfl, rfl⟩
  cases p <;> rfl

theorem driverGet_at_none (l : List (Option String)) (i : Nat)
    (hi : i < l.length) :
    driverGet ⟨l, i, none⟩
      = .ok (⟨l.get ⟨i, hi⟩⟩, ⟨l, i, some ⟨l.get ⟨i, hi⟩⟩⟩) := by
  unfold driverGet
  simp only []
  rw [dif_pos hi]

theorem driverGet_exhausted (l : List (Option String)) (i : Nat)
    (cur : Option WebDriver) (hi : l.length ≤ i) :
    driverGet ⟨l, i, cur⟩ = .error .noDriverRemaining := by
  unfold driverGet
  simp only []
  rw [dif_neg (by omega)]

theorem accessRotatePairs_ok (l : List (Option String)) (k i : Nat)
    (hk : i + k ≤ l.length) :
    accessRotatePairs k ⟨l, i, none⟩ = .ok ⟨l, i + k, none⟩ := by
  induction k generalizing i with
  | zero => rfl
  | succ k ih =>
    have hi : i < l.length := by omega
    rw [accessRotatePairs, driverGet_at_none l i hi]
    simp only []
    have hrot : rotate_driver ⟨l, i, some ⟨l.get ⟨i, hi⟩⟩⟩
        = .ok ⟨l, i + 1, none⟩ := rfl
    rw [hrot]
    simp only []
    rw [ih (i + 1) (by omega)]
    have : i + 1 + k = i + (k + 1) := by omega
    rw [this]

/-- Claim C5: with `N ≥ 1` configured endpoints (a session constructed
with no proxy has exactly one null endpoint), each of the first `N`
cursor positions lazily instantiates its connection from the `k`-th
endpoint, and after `N` access-rotate rounds the `(N+1)`-th access raises
`NoDriverRemainingError` instead of returning a connection. -/
theorem claim_C5 (endpoints : List (Option String))
    (hN : 1 ≤ endpoints.length) :
    (∀ k, (hk : k < endpoints.length) →
      accessRotatePairs k ⟨endpoints, 0, none⟩ = .ok ⟨endpoints, k, none⟩ ∧
      driverGet ⟨endpoints, k, none⟩
        = .ok (⟨endpoints.get ⟨k, hk⟩⟩,
            ⟨endpoints, k, some ⟨endpoints.get ⟨k, hk⟩⟩⟩)) ∧
    accessRotatePairs endpoints.length ⟨endpoints, 0, none⟩
      = .ok ⟨endpoints, endpoints.length, none⟩ ∧
    driverGet ⟨endpoints, endpoints.length, none⟩
      = .error .noDriverRemaining ∧
    (initState none).setup_driver_list = [none] := by
  refine ⟨?_, ?_, ?_, rfl⟩
  · intro k hk
    refine ⟨?_, driverGet_at_none endpoints k hk⟩
    have := accessRotatePairs_ok endpoints k 0 (by omega)
    simpa using this
  · have := accessRotatePairs_ok endpoints endpoints.length 0 (by omega)
    simpa using this
  · exact driverGet_exhausted endpoints endpoints.length none le_rfl

/-- Claim C5, witness: two endpoints admit exactly two instantiations. -/
theorem claim_C5_witness :
    accessRotatePairs 2 ⟨[none, none], 0, none⟩
      = .ok ⟨[none, none], 2, none⟩ ∧
    driverGet ⟨[none, none], 2, none⟩ = .error .noDriverRemaining :=
  ⟨(claim_C5 [none, none] (by decide)).2.1,
   (claim_C5 [none, none] (by decide)).2.2.1⟩

theorem driverGet_error {st : ScreenshooterState} {e : PyError}
    (hg : driverGet st = .error e) : e = .noDriverRemaining := by
  unfold driverGet at hg
  by_cases hlt : st.current_driver_index < st.setup_driver_list.length
  · rw [dif_pos hlt] at hg
    cases hc : st.current_driver <;> rw [hc] at hg <;> exact Except.noConfusion hg
  · rw [dif_neg hlt] at hg
    injection hg with h1
    exact h1.symm

theorem driverGet_ok_cached {st : ScreenshooterState} {d : WebDriver}
    {st1 : ScreenshooterState} (hg : driverGet st = .ok (d, st1)) :
    st1.current_driver = some d := by
  unfold driverGet at hg
  by_cases hlt : st.current_driver_index < st.setup_driver_list.length
  · rw [dif_pos hlt] at hg
    cases hc : st.current_driver with
    | some d0 =>
      rw [hc] at hg
      injection hg with h1
      injection h1 with h2 h3
      rw [← h3, hc, h2]
    | none =>
      rw [hc] at hg
      simp only [] at hg
      injection hg with h1
      injection h1 with h2 h3
      rw [← h3, h2]
  · rw [dif_neg hlt] at hg
    exact Except.noConfusion hg

theorem load_check_driver_cached {env : WebDriver → PageEnv}
    {url_hostname : Str} {wait_for_selector : Option Str}
    {st : ScreenshooterState} {r : Except PyError Unit}
    {st1 : ScreenshooterState}
    (h : load_page_and_check env url_hostname wait_for_selector st = (r, st1))
    (hr : r ≠ .error .noDriverRemaining) :
    ∃ d, st1.current_driver = some d := by
  unfold load_page_and_check at h
  cases hg : driverGet st with
  | error e =>
    rw [hg] at h
    injection h with h1 h2
    rw [driverGet_error hg] at h1
    exact absurd h1.symm hr
  | ok p =>
    obtain ⟨d, st1'⟩ := p
    rw [hg] at h
    simp only [] at h
    have hcd : st1'.current_driver = some d := driverGet_ok_cached hg
    split_ifs at h <;> (injection h with h1 h2; exact ⟨d, h2 ▸ hcd⟩)

theorem load_page_with_checks_ok {env : WebDriver → PageEnv}
    {url_hostname : Str} {wait_for_selector : Option Str}
    {st st1 : ScreenshooterState} {val : Unit}
    (hl : load_page_and_check env url_hostname wait_for_selector st
      = (.ok val, st1)) :
    load_page_with_checks env url_hostname wait_for_selector st
      = .ok (true, st1) := by
  conv_lhs => rw [load_page_with_checks.eq_def]
  split
  · rename_i st1' heq
    rw [hl] at heq
    injection heq with h1 h2
    rw [h2]
  · rename_i st1' heq
    rw [hl] at heq
    injection heq with h1 h2
    exact Except.noConfusion h1
  · rename_i st1' heq
    rw [hl] at heq
    injection heq with h1 h2
    exact Except.noConfusion h1
  · rename_i st1' heq
    rw [hl] at heq
    injection heq with h1 h2
    exact Except.noConfusion h1
  · rename_i st1' heq
    rw [hl] at heq
    injection heq with h1 h2
    exact Except.noConfusion h1

theorem load_page_with_checks_exhausted {env : WebDriver → PageEnv}
    {url_hostname : Str} {wait_for_selector : Option Str}
    {st st1 : ScreenshooterState}
    (hl : load_page_and_check env url_hostname wait_for_selector st
      = (.error .noDriverRemaining, st1)) :
    load_page_with_checks env url_hostname wait_for_selector st
      = .ok (false, st1) := by
  conv_lhs => rw [load_page_with_checks.eq_def]
  split
  · rename_i st1' heq
    rw [hl] at heq
    injection heq with h1 h2
    exact Except.noConfusion h1
  · rename_i st1' heq
    rw [hl] at heq
    injection heq with h1 h2
    rw [h2]
  · rename_i st1' heq
    rw [hl] at heq
    injection heq with h1 h2
    injection h1 with h3
    exact PyError.noConfusion h3
  · rename_i st1' heq
    rw [hl] at heq
    injection heq with h1 h2
    injection h1 with h3
    exact PyError.noConfusion h3
  · rename_i st1' heq
    rw [hl] at heq
    injection heq with h1 h2
    injection h1 with h3
    exact PyError.noConfusion h3

theorem load_page_with_checks_attr {env : WebDriver → PageEnv}
    {url_hostname : Str} {wait_for_selector : Option Str}
    {st st1 : ScreenshooterState}
    (hl : load_page_and_check env url_hostname wait_for_selector st
      = (.error .attributeError, st1)) :
    load_page_with_checks env url_hostname wait_for_selector st
      = .error .attributeError := by
  conv_lhs => rw [load_page_with_checks.eq_def]
  split
  · rename_i st1' heq
    rw [hl] at heq
    injection heq with h1 h2
    exact Except.noConfusion h1
  · rename_i st1' heq
    rw [hl] at heq
    injection heq with h1 h2
    injection h1 with h3
    exact PyError.noConfusion h3
  · rfl
  · rename_i st1' heq
    rw [hl] at heq
    injection heq with h1 h2
    injection h1 with h3
    exact PyError.noConfusion h3
  · rename_i st1' heq
    rw [hl] at heq
    injection heq with h1 h2
    injection h1 with h3
    exact PyError.noConfusion h3

theorem load_page_with_checks_retry_runtime {env : WebDriver → PageEnv}
    {url_hostname : Str} {wait_for_selector : Option Str}
    {st st1 st2 : ScreenshooterState}
    (hl : load_page_and_check env url_hostname wait_for_selector st
      = (.error .runtimeError, st1))
    (hr : rotate_driver st1 = .ok st2) :
    load_page_with_checks env url_hostname wait_for_selector st
      = load_page_with_checks env url_hostname wait_for_selector st2 := by
  conv_lhs => rw [load_page_with_checks.eq_def]
  split
  · rename_i st1' heq
    rw [hl] at heq
    injection heq with h1 h2
    exact Except.noConfusion h1
  · rename_i st1' heq
    rw [hl] at heq
    injection heq with h1 h2
    injection h1 with h3
    exact PyError.noConfusion h3
  · rename_i st1' heq
    rw [hl] at heq
    injection heq with h1 h2
    injection h1 with h3
    exact PyError.noConfusion h3
  · rename_i st1' heq
    rw [hl] at heq
    injection heq with h1 h2
    subst h2
    split
    · rename_i st2' heq2
      rw [hr] at heq2
      injection heq2 with h3
      rw [h3]
    · rename_i e heq2
      rw [hr] at heq2
      exact Except.noConfusion heq2
  · rename_i st1' heq
    rw [hl] at heq
    injection heq with h1 h2
    injection h1 with h3
    exact PyError.noConfusion h3

theorem load_page_with_checks_retry_timeout {env : WebDriver → PageEnv}
    {url_hostname : Str} {wait_for_selector : Option Str}
    {st st1 st2 : ScreenshooterState}
    (hl : load_page_and_check env url_hostname wait_for_selector st
      = (.error .timeoutException, st1))
    (hr : rotate_driver st1 = .ok st2) :
    load_page_with_checks env url_hostname wait_for_selector st
      = load_page_with_checks env url_hostname wait_for_selector st2 := by
  conv_lhs => rw [load_page_with_checks.eq_def]
  split
  · rename_i st1' heq
    rw [hl] at heq
    injection heq with h1 h2
    exact Except.noConfusion h1
  · rename_i st1' heq
    rw [hl] at heq
    injection heq with h1 h2
    injection h1 with h3
    exact PyError.noConfusion h3
  · rename_i st1' heq
    rw [hl] at heq
    injection heq with h1 h2
    injection h1 with h3
    exact PyError.noConfusion h3
  · rename_i st1' heq
    rw [hl] at heq
    injection heq with h1 h2
    injection h1 with h3
    exact PyError.noConfusion h3
  · rename_i st1' heq
    rw [hl] at heq
    injection heq with h1 h2
    subst h2
    split
    · rename_i st2' heq2
      rw [hr] at heq2
      injection heq2 with h3
      rw [h3]
    · rename_i e heq2
      rw [hr] at heq2
      exact Except.noConfusion heq2

theorem load_page_with_checks_retry_runtime_err {env : WebDriver → PageEnv}
    {url_hostname : Str} {wait_for_selector : Option Str}
    {st st1 : ScreenshooterState} {e : PyError}
    (hl : load_page_and_check env url_hostname wait_for_selector st
      = (.error .runtimeError, st1))
    (hr : rotate_driver st1 = .error e) :
    load_page_with_checks env url_hostname wait_for_selector st
      = .error e := by
  conv_lhs => rw [load_page_with_checks.eq_def]
  split
  · rename_i st1' heq
    rw [hl] at heq
    injection heq with h1 h2
    exact Except.noConfusion h1
  · rename_i st1' heq
    rw [hl] at heq
    injection heq with h1 h2
    injection h1 with h3
    exact PyError.noConfusion h3
  · rename_i st1' heq
    rw [hl] at heq
    injection heq with h1 h2
    injection h1 with h3
    exact PyError.noConfusion h3
  · rename_i st1' heq
    rw [hl] at heq
    injection heq with h1 h2
    subst h2
    split
    · rename_i st2' heq2
      rw [hr] at heq2
      exact Except.noConfusion heq2
    · rename_i e' heq2
      rw [hr] at heq2
      injection heq2 with h3
      rw [h3]
  · rename_i st1' heq
    rw [hl] at heq
    injection heq with h1 h2
    injection h1 with h3
    exact PyError.noConfusion h3

theorem load_page_with_checks_retry_timeout_err {env : WebDriver → PageEnv}
    {url_hostname : Str} {wait_for_selector : Option Str}
    {st st1 : ScreenshooterState} {e : PyError}
    (hl : load_page_and_check env url_hostname wait_for_selector st
      = (.error .timeoutException, st1))
    (hr : rotate_driver st1 = .error e) :
    load_page_with_checks env url_hostname wait_for_selector st
      = .error e := by
  conv_lhs => rw [load_page_with_checks.eq_def]
  split
  · rename_i st1' heq
    rw [hl] at heq
    injection heq with h1 h2
    exact Except.noConfusion h1
  · rename_i st1' heq
    rw [hl] at heq
    injection heq with h1 h2
    injection h1 with h3
    exact PyError.noConfusion h3
  · rename_i st1' heq
    rw [hl] at heq
    injection heq with h1 h2
    injection h1 with h3
    exact PyError.noConfusion h3
  · rename_i st1' heq
    rw [hl] at heq
    injection heq with h1 h2
    injection h1 with h3
    exact PyError.noConfusion h3
  · rename_i st1' heq
    rw [hl] at heq
    injection heq with h1 h2
    subst h2
    split
    · rename_i st2' heq2
      rw [hr] at heq2
      exact Except.noConfusion heq2
    · rename_i e' heq2
      rw [hr] at heq2
      injection heq2 with h3
      rw [h3]

/-- Claim C6: an attempt failing with the host-mismatch `RuntimeError` or
the selector `TimeoutException` causes exactly one rotation (cursor + 1)
followed by a retry of the whole sequence; once the cursor is past the
last endpoint the `NoDriverRemainingError` is swallowed and the loop
returns `False` (no page loaded); and the loop returns `True` only when
some attempt completed without any of these failures. -/
theorem claim_C6 (env : WebDriver → PageEnv) (url_hostname : Str)
    (wait_for_selector : Option Str) :
    (∀ st st1 : ScreenshooterState,
      (load_page_and_check env url_hostname wait_for_selector st
          = (.error .runtimeError, st1) ∨
        load_page_and_check env url_hostname wait_for_selector st
          = (.error .timeoutException, st1)) →
      rotate_driver st1
          = .ok ⟨st1.setup_driver_list, st1.current_driver_index + 1, none⟩ ∧
      load_page_with_checks env url_hostname wait_for_selector st
        = load_page_with_checks env url_hostname wait_for_selector
            ⟨st1.setup_driver_list, st1.current_driver_index + 1, none⟩) ∧
    (∀ st : ScreenshooterState,
      st.setup_driver_list.length ≤ st.current_driver_index →
      load_page_with_checks env url_hostname wait_for_selector st
        = .ok (false, st)) ∧
    (∀ st2 st : ScreenshooterState,
      load_page_with_checks env url_hostname wait_for_selector st
        = .ok (true, st2) →
      ∃ stt, load_page_and_check env url_hostname wait_for_selector stt
          = (.ok (), st2)) := by
  refine ⟨?_, ?_, ?_⟩
  · intro st st1 hl
    have hds : ∃ d, st1.current_driver = some d := by
      rcases hl with hl | hl
      · exact load_check_driver_cached hl (by simp)
      · exact load_check_driver_cached hl (by simp)
    obtain ⟨d, hd⟩ := hds
    have hrot : rotate_driver st1
        = .ok ⟨st1.setup_driver_list, st1.current_driver_index + 1, none⟩ := by
      unfold rotate_driver
      rw [hd]
    refine ⟨hrot, ?_⟩
    rcases hl with hl | hl
    · exact load_page_with_checks_retry_runtime hl hrot
    · exact load_page_with_checks_retry_timeout hl hrot
  · intro st hlen
    have hex : driverGet st = .error .noDriverRemaining := by
      unfold driverGet
      rw [dif_neg (by omega)]
    have hl : load_page_and_check env url_hostname wait_for_selector st
        = (.error .noDriverRemaining, st) := by
      unfold load_page_and_check
      rw [hex]
    exact load_page_with_checks_exhausted hl
  · intro st2
    refine load_page_with_checks.induct env url_hostname wait_for_selector
      (fun st => load_page_with_checks env url_hostname wait_for_selector st
          = .ok (true, st2) →
        ∃ stt, load_page_and_check env url_hostname wait_for_selector stt
            = (.ok (), st2))
      ?_ ?_ ?_ ?_ ?_ ?_ ?_
    · intro st val st1 hl hres
      rw [load_page_with_checks_ok hl] at hres
      injection hres with h1
      injection h1 with h2 h3
      cases val
      exact ⟨st, h3 ▸ hl⟩
    · intro st st1 hl hres
      rw [load_page_with_checks_exhausted hl] at hres
      injection hres with h1
      injection h1 with h2 h3
      exact Bool.noConfusion h2
    · intro st st1 hl hres
      rw [load_page_with_checks_attr hl] at hres
      exact Except.noConfusion hres
    · intro st st1 hl st2' hr ih hres
      rw [load_page_with_checks_retry_runtime hl hr] at hres
      exact ih hres
    · intro st st1 hl e hr hres
      rw [load_page_with_checks_retry_runtime_err hl hr] at hres
      exact Except.noConfusion hres
    · intro st st1 hl st2' hr ih hres
      rw [load_page_with_checks_retry_timeout hl hr] at hres
      exact ih hres
    · intro st st1 hl e hr hres
      rw [load_page_with_checks_retry_timeout_err hl hr] at hres
      exact Except.noConfusion hres

/-- Claim C6, witness: with one endpoint whose load lands on
`example.com`, requesting `evil.com` fails with the host-mismatch
`RuntimeError`, rotates once, and then reports `False` on exhaustion;
requesting `example.com` succeeds and the loop's `True` comes from a
clean attempt. -/
theorem claim_C6_witness :
    rotate_driver ⟨[none], 0, some ⟨none⟩⟩ = .ok ⟨[none], 1, none⟩ ∧
    load_page_with_checks env0 hostEvil none ⟨[none], 0, none⟩
      = load_page_with_checks env0 hostEvil none ⟨[none], 1, none⟩ ∧
    load_page_with_checks env0 hostEvil none ⟨[none], 1, none⟩
      = .ok (false, ⟨[none], 1, none⟩) ∧
    (∃ stt, load_page_and_check env0 hostEx none stt
        = (.ok (), ⟨[none], 0, some ⟨none⟩⟩)) :=
  ⟨((claim_C6 env0 hostEvil none).1 ⟨[none], 0, none⟩
      ⟨[none], 0, some ⟨none⟩⟩ (Or.inl rfl)).1,
   ((claim_C6 env0 hostEvil none).1 ⟨[none], 0, none⟩
      ⟨[none], 0, some ⟨none⟩⟩ (Or.inl rfl)).2,
   (claim_C6 env0 hostEvil none).2.1 ⟨[none], 1, none⟩ (by decide),
   (claim_C6 env0 hostEx none).2.2 ⟨[none], 0, some ⟨none⟩⟩ ⟨[none], 0, none⟩
     (load_page_with_checks_ok rfl)⟩

/-! ## The traversal dict -/

theorem keysOf_append (a b : StMap) : keysOf (a ++ b) = keysOf a ++ keysOf b :=
  List.map_append _ _ _

theorem keysOf_setParent (st : StMap) (k ph : Int) :
    keysOf (setParent st k ph) = keysOf st := by
  unfold keysOf setParent
  rw [List.map_map]
  refine List.map_congr_left ?_
  intro p _
  by_cases hp : (p.1 == k) = true
  · simp only [Function.comp_apply, if_pos hp]
  · simp only [Function.comp_apply, if_neg hp]

theorem lookupA_none (st : StMap) (k : Int) :
    lookupA st k = none ↔ k ∉ keysOf st := by
  unfold lookupA keysOf
  rw [Option.map_eq_none', List.find?_eq_none]
  simp only [beq_iff_eq, List.mem_map, not_exists]
  constructor
  · rintro h p
    rintro ⟨hp, hpk⟩
    exact h p hp hpk
  · intro h p hp hpk
    exact h p ⟨hp, hpk⟩

theorem lookupA_isSome_mem {st : StMap} {k : Int} {v : ElementItem}
    (h : lookupA st k = some v) : k ∈ keysOf st := by
  by_contra hk
  rw [← lookupA_none st k] at hk
  rw [h] at hk
  exact Option.noConfusion hk

theorem setParent_inv {st : StMap} {cid ph : Int}
    (hst : IntegOk st) (hid : KeyId st) (hph : ph ∈ keysOf st) :
    IntegOk (setParent st cid ph) ∧ KeyId (setParent st cid ph) := by
  constructor
  · intro p hp pid hpid
    rw [keysOf_setParent]
    obtain ⟨q, hq, hfq⟩ := List.mem_map.1 hp
    by_cases hqc : q.1 == cid
    · rw [if_pos hqc] at hfq
      rw [← hfq] at hpid
      simp only [] at hpid
      injection hpid with h1
      rw [← h1]
      exact hph
    · rw [if_neg hqc] at hfq
      rw [← hfq] at hpid
      exact hst q hq pid hpid
  · intro p hp
    obtain ⟨q, hq, hfq⟩ := List.mem_map.1 hp
    by_cases hqc : q.1 == cid
    · rw [if_pos hqc] at hfq
      rw [← hfq]
      exact hid q hq
    · rw [if_neg hqc] at hfq
      rw [← hfq]
      exact hid q hq

theorem traverse_dom_inv (cap full : Bool) (px : Int) :
    ∀ (e : DomNode) (psel : Str) (sibs : Option (List DomNode))
      (idx : Option Nat) (st : StMap),
      (∀ k, k ∈ keysOf st →
        k ∈ keysOf (traverse_dom cap full px e psel sibs idx st).2) ∧
      (∀ cid, (traverse_dom cap full px e psel sibs idx st).1 = some cid →
        cid ∈ keysOf (traverse_dom cap full px e psel sibs idx st).2) ∧
      (IntegOk st ∧ KeyId st →
        IntegOk (traverse_dom cap full px e psel sibs idx st).2 ∧
          KeyId (traverse_dom cap full px e psel sibs idx st).2) ∧
      ((keysOf st).Nodup →
        (keysOf (traverse_dom cap full px e psel sibs idx st).2).Nodup) := by
  refine traverse_dom.induct cap full px
    (fun e psel sibs idx st =>
      (∀ k, k ∈ keysOf st →
        k ∈ keysOf (traverse_dom cap full px e psel sibs idx st).2) ∧
      (∀ cid, (traverse_dom cap full px e psel sibs idx st).1 = some cid →
        cid ∈ keysOf (traverse_dom cap full px e psel sibs idx st).2) ∧
      (IntegOk st ∧ KeyId st →
        IntegOk (traverse_dom cap full px e psel sibs idx st).2 ∧
          KeyId (traverse_dom cap full px e psel sibs idx st).2) ∧
      ((keysOf st).Nodup →
        (keysOf (traverse_dom cap full px e psel sibs idx st).2).Nodup))
    (fun cs sel siblings i ph st =>
      ph ∈ keysOf st →
      (∀ k, k ∈ keysOf st →
        k ∈ keysOf (traverse_children cap full px cs sel siblings i ph st)) ∧
      (IntegOk st ∧ KeyId st →
        IntegOk (traverse_children cap full px cs sel siblings i ph st) ∧
          KeyId (traverse_children cap full px cs sel siblings i ph st)) ∧
      ((keysOf st).Nodup →
        (keysOf (traverse_children cap full px cs sel siblings i ph st)).Nodup))
    ?_ ?_ ?_ ?_ ?_
  · -- hash revisit: the cached record is returned, state unchanged
    intro psel sibs idx st a ehash visible cssPosition rectAbs rectClient
      children element_id val hlook
    simp only [traverse_dom, hlook]
    refine ⟨fun k hk => hk, fun cid hcid => ?_, id, id⟩
    injection hcid with h1
    rw [← h1]
    exact lookupA_isSome_mem hlook
  · -- invisible, not captured: skipped, state unchanged
    intro psel sibs idx st a ehash visible cssPosition rectAbs rectClient
      children element_id hlook is_visible hnv
    simp only [traverse_dom, hlook, if_pos hnv]
    exact ⟨fun k hk => hk, fun cid hcid => Option.noConfusion hcid, id, id⟩
  · -- fresh node: record inserted, children traversed
    intro psel sibs idx st a ehash visible cssPosition rectAbs rectClient
      children element_id hlook is_visible hnv rect item st1 IH
    have hst1 : st1 = st ++ [(element_id, item)] := rfl
    have hmem : (element_id : Int) ∉ keysOf st := (lookupA_none st _).1 hlook
    have hk1 : keysOf st1 = keysOf st ++ [element_id] := by
      rw [hst1, keysOf_append]
      rfl
    have hph1 : (element_id : Int) ∈ keysOf st1 := by
      rw [hk1]
      exact List.mem_append_right _ (List.mem_singleton.2 rfl)
    have IH2 := IH hph1
    simp only [traverse_dom, hlook, if_neg hnv]
    refine ⟨?_, ?_, ?_, ?_⟩
    · intro k hk
      refine IH2.1 k ?_
      rw [hk1]
      exact List.mem_append_left _ hk
    · intro cid hcid
      injection hcid with h1
      rw [← h1]
      exact IH2.1 element_id hph1
    · intro hinv
      refine IH2.2.1 ⟨?_, ?_⟩
      · intro p hp pid hpid
        rw [hst1] at hp
        rcases List.mem_append.1 hp with hp | hp
        · rw [hk1]
          exact List.mem_append_left _ (hinv.1 p hp pid hpid)
        · rw [List.mem_singleton.1 hp] at hpid
          exact Option.noConfusion hpid
      · intro p hp
        rw [hst1] at hp
        rcases List.mem_append.1 hp with hp | hp
        · exact hinv.2 p hp
        · rw [List.mem_singleton.1 hp]
          rfl
    · intro hnd
      refine IH2.2.2 ?_
      rw [hk1]
      refine List.Nodup.append hnd (List.nodup_singleton _) ?_
      intro x hx hx2
      rw [List.mem_singleton.1 hx2] at hx
      exact hmem hx
  · -- empty child list
    intro sel siblings i ph st _
    simp only [traverse_children]
    exact ⟨fun k hk => hk, id, id⟩
  · -- one child then the rest
    intro sel siblings i ph st c rest r st2 IH1 IH2 hph
    have hkeys2 : keysOf st2 = keysOf r.2 := by
      have hst2 : st2 = match r.1 with
          | some cid => setParent r.2 cid ph
          | none => r.2 := rfl
      cases hr1 : r.1 with
      | some cid =>
        rw [hr1] at hst2
        rw [hst2, keysOf_setParent]
      | none =>
        rw [hr1] at hst2
        rw [hst2]
    have hphr : ph ∈ keysOf r.2 := IH1.1 ph hph
    have hph2 : ph ∈ keysOf st2 := by
      rw [hkeys2]
      exact hphr
    have IH2' := IH2 hph2
    have hinv2 : IntegOk st ∧ KeyId st → IntegOk st2 ∧ KeyId st2 := by
      intro hinv
      have hr2 := IH1.2.2.1 hinv
      have hst2 : st2 = match r.1 with
          | some cid => setParent r.2 cid ph
          | none => r.2 := rfl
      cases hr1 : r.1 with
      | some cid =>
        rw [hr1] at hst2
        rw [hst2]
        exact setParent_inv hr2.1 hr2.2 hphr
      | none =>
        rw [hr1] at hst2
        rw [hst2]
        exact hr2
    simp only [traverse_children]
    refine ⟨?_, ?_, ?_⟩
    · intro k hk
      refine IH2'.1 k ?_
      rw [hkeys2]
      exact IH1.1 k hk
    · intro hinv
      exact IH2'.2.1 (hinv2 hinv)
    · intro hnd
      refine IH2'.2.2 ?_
      rw [hkeys2]
      exact IH1.2.2.2 hnd

theorem setParent_append (a b : StMap) (k ph : Int) :
    setParent (a ++ b) k ph = setParent a k ph ++ setParent b k ph :=
  List.map_append _ _ _

theorem setParent_of_not_mem {st : StMap} {k : Int} (h : k ∉ keysOf st)
    (ph : Int) : setParent st k ph = st := by
  induction st with
  | nil => rfl
  | cons p t ih =>
    have h1 : ¬(p.1 == k) = true := by
      intro hb
      refine h ?_
      have hpk : p.1 = k := by simpa using hb
      have hks : keysOf (p :: t) = p.1 :: keysOf t := rfl
      rw [hks, hpk]
      exact List.mem_cons_self _ _
    have h2 : k ∉ keysOf t := fun hk => h (List.mem_cons_of_mem _ hk)
    unfold setParent
    simp only [List.map_cons, if_neg h1]
    unfold setParent at ih
    rw [ih h2]

theorem setParent_cons_self (k : Int) (it : ElementItem) (tl : StMap)
    (ph : Int) :
    setParent ((k, it) :: tl) k ph
      = (k, { it with parent_id := some ph }) :: setParent tl k ph := by
  unfold setParent
  simp only [List.map_cons]
  rw [if_pos (by simp : ((k : Int) == k) = true)]

theorem setParent_localize {st tl : StMap} {k ph : Int} (it : ElementItem)
    (h1 : k ∉ keysOf st) (h2 : k ∉ keysOf tl) :
    setParent (st ++ (k, it) :: tl) k ph
      = st ++ (k, { it with parent_id := some ph }) :: tl := by
  rw [setParent_append, setParent_of_not_mem h1, setParent_cons_self,
    setParent_of_not_mem h2]

theorem emitChildren_keys_sub (cap full : Bool) (px : Int) :
    ∀ (cs : List DomNode) (sel : Str) (siblings : List DomNode) (i : Nat)
      (ph : Int),
      ∀ k ∈ keysOf (emitChildren cap full px cs sel siblings i ph),
        k ∈ domHashesList cs := by
  refine emitChildren.induct cap full px
    (fun e psel sibs idx =>
      ∀ k ∈ keysOf (emitRun cap full px e psel sibs idx), k ∈ domHashes e)
    (fun cs sel siblings i ph =>
      ∀ k ∈ keysOf (emitChildren cap full px cs sel siblings i ph),
        k ∈ domHashesList cs)
    ?_ ?_ ?_ ?_
  · intro psel sibs idx a ehash visible cssPosition rectAbs rectClient
      children hnv k hk
    simp only [emitRun, if_pos hnv] at hk
    exact absurd hk (List.not_mem_nil k)
  · intro psel sibs idx a ehash visible cssPosition rectAbs rectClient
      children hnv item IH k hk
    simp only [emitRun, if_neg hnv] at hk
    simp only [keysOf, List.map_cons] at hk
    simp only [domHashes]
    rcases List.mem_cons.1 hk with hk | hk
    · rw [hk]
      exact List.mem_cons_self _ _
    · exact List.mem_cons_of_mem _ (IH k hk)
  · intro sel siblings i ph k hk
    simp only [emitChildren, keysOf, List.map_nil] at hk
    exact absurd hk (List.not_mem_nil k)
  · intro sel siblings i ph c rest IH1 IH2 k hk
    simp only [emitChildren] at hk
    rw [keysOf_append] at hk
    simp only [domHashesList]
    rcases List.mem_append.1 hk with hk | hk
    · refine List.mem_append_left _ (IH1 k ?_)
      cases hec : emitRun cap full px c sel (some siblings) (some i) with
      | nil =>
        rw [hec] at hk
        exact absurd hk (List.not_mem_nil k)
      | cons hd tl =>
        obtain ⟨k0, it0⟩ := hd
        rw [hec] at hk
        simp only [keysOf, List.map_cons] at hk ⊢
        exact hk
    · exact List.mem_append_right _ (IH2 k hk)

theorem emitRun_keys_sub (cap full : Bool) (px : Int) (e : DomNode)
    (psel : Str) (sibs : Option (List DomNode)) (idx : Option Nat) :
    ∀ k ∈ keysOf (emitRun cap full px e psel sibs idx), k ∈ domHashes e := by
  obtain ⟨a, h, v, p, ra, rc, cs⟩ := e
  intro k hk
  simp only [emitRun] at hk
  by_cases hg : (v = true ∨ cap = true)
  · rw [if_neg (not_not_intro hg)] at hk
    simp only [keysOf, List.map_cons] at hk
    simp only [domHashes]
    rcases List.mem_cons.1 hk with hk | hk
    · rw [hk]
      exact List.mem_cons_self _ _
    · exact List.mem_cons_of_mem _
        (emitChildren_keys_sub cap full px cs _ cs 0 h k hk)
  · rw [if_pos hg] at hk
    exact absurd hk (List.not_mem_nil k)

/-- Claim C2: every record emitted by `get_elements` whose parent
identity is set references the id of a record present in the same output
collection. -/
theorem claim_C2 (full_page_screenshot : Bool) (px : Int)
    (capture_invisible_elements : Bool) (root_element : Option DomNode) :
    ∀ it ∈ get_elements full_page_screenshot px capture_invisible_elements
        root_element,
      ∀ pid, it.parent_id = some pid →
        ∃ it2 ∈ get_elements full_page_screenshot px
            capture_invisible_elements root_element, it2.id = pid := by
  intro it hit pid hpid
  cases root_element with
  | none =>
    simp only [get_elements] at hit
    exact absurd hit (List.not_mem_nil it)
  | some root =>
    simp only [get_elements] at hit ⊢
    have hinv := (traverse_dom_inv capture_invisible_elements
      full_page_screenshot px root [] none none []).2.2.1
      ⟨fun p hp => absurd hp (List.not_mem_nil p),
       fun p hp => absurd hp (List.not_mem_nil p)⟩
    obtain ⟨p, hp, hpe⟩ := List.mem_map.1 hit
    have hpp : p.2.parent_id = some pid := by
      rw [hpe]
      exact hpid
    have hmem := hinv.1 p hp pid hpp
    simp only [keysOf] at hmem
    obtain ⟨q, hq, hq1⟩ := List.mem_map.1 hmem
    refine ⟨q.2, List.mem_map_of_mem _ hq, ?_⟩
    rw [hinv.2 q hq, hq1]

/-- Claim C2, witness: in the tree with an invisible middle node captured
(`capture_invisible_elements = true`), the second record's parent
identity (the root's hash) is the id of an emitted record. -/
theorem claim_C2_witness :
    ∃ it2 ∈ get_elements true 1 true (some exRoot), it2.id = 1 :=
  claim_C2 true 1 true (some exRoot)
    ((get_elements true 1 true (some exRoot)).get ⟨1, by decide⟩)
    (List.get_mem _ 1 (by decide)) 1 (by decide)

/-- Claim C4: output ids are pairwise distinct — the hash-keyed dict
never admits a second record for an already-emitted identity — so a tree
containing two structurally distinct nodes with identical markup hashes
yields exactly one record for that identity whenever it is emitted at
all. -/
theorem claim_C4 (full_page_screenshot : Bool) (px : Int)
    (capture_invisible_elements : Bool) (root : DomNode) (h : Int)
    (hdup : ¬ (domHashes root).Nodup)
    (hmem : h ∈ (get_elements full_page_screenshot px
        capture_invisible_elements (some root)).map (·.id)) :
    ((get_elements full_page_screenshot px capture_invisible_elements
        (some root)).map (·.id)).Nodup ∧
      ((get_elements full_page_screenshot px capture_invisible_elements
        (some root)).map (·.id)).count h = 1 := by
  have hinv := (traverse_dom_inv capture_invisible_elements
    full_page_screenshot px root [] none none []).2.2.1
    ⟨fun p hp => absurd hp (List.not_mem_nil p),
     fun p hp => absurd hp (List.not_mem_nil p)⟩
  have hnd := (traverse_dom_inv capture_invisible_elements
    full_page_screenshot px root [] none none []).2.2.2 List.nodup_nil
  have hids : (get_elements full_page_screenshot px
      capture_invisible_elements (some root)).map (·.id)
      = keysOf (traverse_dom capture_invisible_elements full_page_screenshot
          px root [] none none []).2 := by
    simp only [get_elements]
    rw [List.map_map]
    simp only [keysOf]
    refine List.map_congr_left ?_
    intro p hp
    exact hinv.2 p hp
  rw [hids] at hmem ⊢
  exact ⟨hnd, List.count_eq_one_of_mem hnd hmem⟩

/-- Claim C4, witness: a root with two identical (same-hash) children
emits exactly one record for the duplicated identity. -/
theorem claim_C4_witness :
    ¬ (domHashes exDupRoot).Nodup ∧
      ((get_elements true 1 false (some exDupRoot)).map (·.id)).count 2
        = 1 :=
  ⟨by decide, (claim_C4 true 1 false exDupRoot 2 (by decide) (by decide)).2⟩

theorem traverse_dom_char (cap full : Bool) (px : Int) :
    ∀ (e : DomNode) (psel : Str) (sibs : Option (List DomNode))
      (idx : Option Nat) (st : StMap),
      (domHashes e).Nodup →
      (∀ h ∈ domHashes e, h ∉ keysOf st) →
      traverse_dom cap full px e psel sibs idx st
        = (if e.visible = true ∨ cap = true then some e.ehash else none,
           st ++ emitRun cap full px e psel sibs idx) := by
  refine traverse_dom.induct cap full px
    (fun e psel sibs idx st =>
      (domHashes e).Nodup →
      (∀ h ∈ domHashes e, h ∉ keysOf st) →
      traverse_dom cap full px e psel sibs idx st
        = (if e.visible = true ∨ cap = true then some e.ehash else none,
           st ++ emitRun cap full px e psel sibs idx))
    (fun cs sel siblings i ph st =>
      (domHashesList cs).Nodup →
      (∀ h ∈ domHashesList cs, h ∉ keysOf st) →
      traverse_children cap full px cs sel siblings i ph st
        = st ++ emitChildren cap full px cs sel siblings i ph)
    ?_ ?_ ?_ ?_ ?_
  · -- a hash revisit is impossible when the subtree's hashes are fresh
    intro psel sibs idx st a ehash visible cssPosition rectAbs rectClient
      children element_id val hlook hnd hfresh
    exact absurd (lookupA_isSome_mem hlook)
      (hfresh ehash (by simp [domHashes]))
  · -- invisible and not captured: no state change, nothing emitted
    intro psel sibs idx st a ehash visible cssPosition rectAbs rectClient
      children element_id hlook is_visible hnv hnd hfresh
    simp only [traverse_dom, hlook, emitRun, DomNode.visible, DomNode.ehash]
    rw [if_pos hnv, if_pos hnv, if_neg hnv, List.append_nil]
  · -- fresh node: the record goes in, then the children run on the
    -- extended dict
    intro psel sibs idx st a ehash visible cssPosition rectAbs rectClient
      children element_id hlook is_visible hnv rect item st1 IH hnd hfresh
    simp only [domHashes] at hnd hfresh
    have hnd1 : (domHashesList children).Nodup := (List.nodup_cons.1 hnd).2
    have hnotin : ehash ∉ domHashesList children := (List.nodup_cons.1 hnd).1
    have hst1 : st1 = st ++ [(element_id, item)] := rfl
    have hk1 : keysOf st1 = keysOf st ++ [ehash] := by
      rw [hst1, keysOf_append]
      rfl
    have hfresh1 : ∀ h ∈ domHashesList children, h ∉ keysOf st1 := by
      intro h hh
      rw [hk1]
      intro hcon
      rcases List.mem_append.1 hcon with hc | hc
      · exact hfresh h (List.mem_cons_of_mem _ hh) hc
      · rw [List.mem_singleton.1 hc] at hh
        exact hnotin hh
    have IH2 := IH hnd1 hfresh1
    simp only [traverse_dom, hlook, if_neg hnv]
    rw [IH2]
    simp only [DomNode.visible, DomNode.ehash, emitRun]
    rw [if_pos (not_not.1 hnv), if_neg hnv, hst1, List.append_assoc,
      List.singleton_append]
  · -- no children
    intro sel siblings i ph st _ _
    simp only [traverse_children, emitChildren, List.append_nil]
  · -- one child, then the rest
    intro sel siblings i ph st c rest r st2 IH1 IH2 hnd hfresh
    obtain ⟨ca, ch, cv, cp, cra, crc, ccs⟩ := c
    simp only [domHashesList] at hnd hfresh
    have hsplit := List.nodup_append.1 hnd
    have hfc : ∀ h ∈ domHashes (.node ca ch cv cp cra crc ccs),
        h ∉ keysOf st := fun h hh => hfresh h (List.mem_append_left _ hh)
    have hfr : ∀ h ∈ domHashesList rest, h ∉ keysOf st :=
      fun h hh => hfresh h (List.mem_append_right _ hh)
    have hr : r = traverse_dom cap full px
        (.node ca ch cv cp cra crc ccs) sel (some siblings) (some i) st := rfl
    have hchar := IH1 hsplit.1 hfc
    simp only [DomNode.visible, DomNode.ehash] at hchar
    have hchead : ch ∈ domHashes (.node ca ch cv cp cra crc ccs) := by
      simp [domHashes]
    have hchnotin : ch ∉ domHashesList ccs := by
      have := hsplit.1
      simp only [domHashes] at this
      exact (List.nodup_cons.1 this).1
    by_cases hcv : (cv = true ∨ cap = true)
    · -- the child is processed: its entry is patched with the parent hash
      rw [if_pos hcv] at hchar
      cases hec : emitRun cap full px (.node ca ch cv cp cra crc ccs) sel
          (some siblings) (some i) with
      | nil =>
        exfalso
        simp only [emitRun] at hec
        rw [if_neg (not_not_intro hcv)] at hec
        exact List.cons_ne_nil _ _ hec
      | cons hd tl =>
        obtain ⟨k0, it0⟩ := hd
        have hec' := hec
        simp only [emitRun] at hec'
        rw [if_neg (not_not_intro hcv)] at hec'
        injection hec' with hec1 hec2
        injection hec1 with hch hitem
        subst hch
        have hchst : ch ∉ keysOf st := hfc ch hchead
        have htl : ∀ k ∈ keysOf tl, k ∈ domHashesList ccs := by
          intro k hk
          rw [← hec2] at hk
          exact emitChildren_keys_sub cap full px ccs _ ccs 0 ch k hk
        have hchtl : ch ∉ keysOf tl := fun hk => hchnotin (htl ch hk)
        have hr1 : r = (some ch, st ++ ((ch, it0) :: tl)) := by
          rw [hr, hchar, hec]
        have hst2 : st2 = st ++ (ch, { it0 with parent_id := some ph }) :: tl := by
          have h0 : st2 = match r.1 with
              | some cid => setParent r.2 cid ph
              | none => r.2 := rfl
          rw [h0, hr1]
          exact setParent_localize it0 hchst hchtl
        have hfr2 : ∀ h ∈ domHashesList rest, h ∉ keysOf st2 := by
          intro h hh
          rw [hst2, keysOf_append]
          intro hcon
          have hdisj := hsplit.2.2
          rcases List.mem_append.1 hcon with hc | hc
          · exact hfr h hh hc
          · have hc2 : h ∈ ch :: keysOf tl := hc
            rcases List.mem_cons.1 hc2 with hc3 | hc3
            · exact hdisj (hc3 ▸ hchead) hh
            · refine hdisj ?_ hh
              simp only [domHashes]
              exact List.mem_cons_of_mem _ (htl h hc3)
        have IH2' := IH2 hsplit.2.1 hfr2
        rw [hst2] at IH2'
        simp only [traverse_children]
        rw [hchar]
        simp only []
        rw [hec, setParent_localize it0 hchst hchtl, IH2']
        simp only [emitChildren]
        rw [hec]
        simp only []
        rw [List.append_assoc]
    · -- the child is skipped: state and emission both unchanged
      rw [if_neg hcv] at hchar
      have hemitnil : emitRun cap full px (.node ca ch cv cp cra crc ccs) sel
          (some siblings) (some i) = [] := by
        simp only [emitRun]
        rw [if_pos hcv]
      have hr1 : r = (none, st) := by
        rw [hr, hchar, hemitnil, List.append_nil]
      have hst2 : st2 = st := by
        have h0 : st2 = match r.1 with
            | some cid => setParent r.2 cid ph
            | none => r.2 := rfl
        rw [h0, hr1]
      have IH2' := IH2 hsplit.2.1 (by rw [hst2]; exact hfr)
      rw [hst2] at IH2'
      simp only [traverse_children]
      rw [hchar]
      simp only []
      rw [hemitnil, List.append_nil, IH2']
      simp only [emitChildren]
      rw [hemitnil]
      simp only []
      rw [List.nil_append]

theorem emitChildren_false_visible (full : Bool) (px : Int) :
    ∀ (cs : List DomNode) (sel : Str) (siblings : List DomNode) (i : Nat)
      (ph : Int),
      ∀ p ∈ emitChildren false full px cs sel siblings i ph,
        p.2.is_visible = true := by
  refine emitChildren.induct false full px
    (fun e psel sibs idx =>
      ∀ p ∈ emitRun false full px e psel sibs idx, p.2.is_visible = true)
    (fun cs sel siblings i ph =>
      ∀ p ∈ emitChildren false full px cs sel siblings i ph,
        p.2.is_visible = true)
    ?_ ?_ ?_ ?_
  · intro psel sibs idx a ehash visible cssPosition rectAbs rectClient
      children hnv p hp
    simp only [emitRun, if_pos hnv] at hp
    exact absurd hp (List.not_mem_nil p)
  · intro psel sibs idx a ehash visible cssPosition rectAbs rectClient
      children hnv item IH p hp
    have hvis : visible = true := by
      rcases not_not.1 hnv with hv | hv
      · exact hv
      · exact absurd hv Bool.false_ne_true
    simp only [emitRun, if_neg hnv] at hp
    rcases List.mem_cons.1 hp with hp | hp
    · rw [hp]
      exact hvis
    · exact IH p hp
  · intro sel siblings i ph p hp
    simp only [emitChildren] at hp
    exact absurd hp (List.not_mem_nil p)
  · intro sel siblings i ph c rest IH1 IH2 p hp
    simp only [emitChildren] at hp
    rcases List.mem_append.1 hp with hp | hp
    · cases hec : emitRun false full px c sel (some siblings) (some i) with
      | nil =>
        rw [hec] at hp
        exact absurd hp (List.not_mem_nil p)
      | cons hd tl =>
        obtain ⟨k0, it0⟩ := hd
        rw [hec] at hp
        rcases List.mem_cons.1 hp with hp | hp
        · rw [hp]
          exact IH1 (k0, it0) (by rw [hec]; exact List.mem_cons_self _ _)
        · exact IH1 p (by rw [hec]; exact List.mem_cons_of_mem _ hp)
    · exact IH2 p hp

theorem emitChildren_true_complete (full : Bool) (px : Int) :
    ∀ (cs : List DomNode) (sel : Str) (siblings : List DomNode) (i : Nat)
      (ph : Int),
      ∀ x ∈ subNodesList cs,
        ∃ p ∈ emitChildren true full px cs sel siblings i ph,
          p.1 = x.ehash ∧ p.2.id = x.ehash ∧ p.2.is_visible = x.visible := by
  refine emitChildren.induct true full px
    (fun e psel sibs idx =>
      ∀ x ∈ subNodes e,
        ∃ p ∈ emitRun true full px e psel sibs idx,
          p.1 = x.ehash ∧ p.2.id = x.ehash ∧ p.2.is_visible = x.visible)
    (fun cs sel siblings i ph =>
      ∀ x ∈ subNodesList cs,
        ∃ p ∈ emitChildren true full px cs sel siblings i ph,
          p.1 = x.ehash ∧ p.2.id = x.ehash ∧ p.2.is_visible = x.visible)
    ?_ ?_ ?_ ?_
  · intro psel sibs idx a ehash visible cssPosition rectAbs rectClient
      children hnv
    exact absurd (Or.inr rfl) hnv
  · intro psel sibs idx a ehash visible cssPosition rectAbs rectClient
      children hnv item IH x hx
    simp only [subNodes] at hx
    simp only [emitRun]
    rw [if_neg (by simp)]
    rcases List.mem_cons.1 hx with hx | hx
    · refine ⟨(ehash, item), List.mem_cons_self _ _, ?_⟩
      rw [hx]
      exact ⟨rfl, rfl, rfl⟩
    · obtain ⟨p, hp, hprops⟩ := IH x hx
      exact ⟨p, List.mem_cons_of_mem _ hp, hprops⟩
  · intro sel siblings i ph x hx
    simp only [subNodesList] at hx
    exact absurd hx (List.not_mem_nil x)
  · intro sel siblings i ph c rest IH1 IH2 x hx
    simp only [subNodesList] at hx
    simp only [emitChildren]
    rcases List.mem_append.1 hx with hx | hx
    · obtain ⟨p, hp, hprops⟩ := IH1 x hx
      cases hec : emitRun true full px c sel (some siblings) (some i) with
      | nil =>
        rw [hec] at hp
        exact absurd hp (List.not_mem_nil p)
      | cons hd tl =>
        obtain ⟨k0, it0⟩ := hd
        rw [hec] at hp
        rcases List.mem_cons.1 hp with hp | hp
        · refine ⟨(k0, { it0 with parent_id := some ph }),
            List.mem_append_left _ (List.mem_cons_self _ _), ?_⟩
          rw [hp] at hprops
          exact hprops
        · exact ⟨p, List.mem_append_left _ (List.mem_cons_of_mem _ hp), hprops⟩
    · obtain ⟨p, hp, hprops⟩ := IH2 x hx
      exact ⟨p, List.mem_append_right _ hp, hprops⟩

theorem emitChildren_false_sub_true (full : Bool) (px : Int) :
    ∀ (cs : List DomNode) (sel : Str) (siblings : List DomNode) (i : Nat)
      (ph : Int), (domHashesList cs).Nodup →
      ∀ p ∈ emitChildren false full px cs sel siblings i ph,
        p ∈ emitChildren true full px cs sel siblings i ph := by
  refine emitChildren.induct false full px
    (fun e psel sibs idx => (domHashes e).Nodup →
      ∀ p ∈ emitRun false full px e psel sibs idx,
        p ∈ emitRun true full px e psel sibs idx)
    (fun cs sel siblings i ph => (domHashesList cs).Nodup →
      ∀ p ∈ emitChildren false full px cs sel siblings i ph,
        p ∈ emitChildren true full px cs sel siblings i ph)
    ?_ ?_ ?_ ?_
  · intro psel sibs idx a ehash visible cssPosition rectAbs rectClient
      children hnv hnd p hp
    simp only [emitRun, if_pos hnv] at hp
    exact absurd hp (List.not_mem_nil p)
  · intro psel sibs idx a ehash visible cssPosition rectAbs rectClient
      children hnv item IH hnd p hp
    simp only [emitRun, if_neg hnv] at hp
    simp only [emitRun]
    rw [if_neg (by simp)]
    rcases List.mem_cons.1 hp with hp | hp
    · exact hp ▸ List.mem_cons_self _ _
    · refine List.mem_cons_of_mem _ (IH ?_ p hp)
      simp only [domHashes] at hnd
      exact (List.nodup_cons.1 hnd).2
  · intro sel siblings i ph hnd p hp
    simp only [emitChildren] at hp
    exact absurd hp (List.not_mem_nil p)
  · intro sel siblings i ph c rest IH1 IH2 hnd p hp
    obtain ⟨ca, ch, cv, cp, cra, crc, ccs⟩ := c
    simp only [domHashesList] at hnd
    have hsplit := List.nodup_append.1 hnd
    simp only [emitChildren] at hp ⊢
    rcases List.mem_append.1 hp with hp | hp
    · cases hec : emitRun false full px (.node ca ch cv cp cra crc ccs) sel
          (some siblings) (some i) with
      | nil =>
        rw [hec] at hp
        exact absurd hp (List.not_mem_nil p)
      | cons hd tlF =>
        obtain ⟨k0, it0⟩ := hd
        rw [hec] at hp
        have hcvis : cv = true := by
          by_contra hcv
          have hnil : emitRun false full px (.node ca ch cv cp cra crc ccs)
              sel (some siblings) (some i) = [] := by
            have hguard : ¬(cv = true ∨ false = true) := by
              rintro (h | h)
              · exact hcv h
              · exact Bool.noConfusion h
            simp only [emitRun]
            rw [if_pos hguard]
          rw [hnil] at hec
          exact List.noConfusion hec
        have hguardF : ¬¬(cv = true ∨ false = true) :=
          not_not_intro (Or.inl hcvis)
        have hecF := hec
        simp only [emitRun] at hecF
        rw [if_neg hguardF] at hecF
        injection hecF with hec1 hec2
        injection hec1 with hch hitem
        subst hch
        have hecT : emitRun true full px (.node ca ch cv cp cra crc ccs) sel
            (some siblings) (some i)
            = (ch, it0) ::
              emitChildren true full px ccs it0.css_selector ccs 0 ch := by
          simp only [emitRun]
          rw [if_neg (by simp)]
          rw [hitem]
        rw [hecT]
        rcases List.mem_cons.1 hp with hp | hp
        · rw [hp]
          exact List.mem_append_left _ (List.mem_cons_self _ _)
        · have hec2' : emitChildren false full px ccs it0.css_selector ccs 0 ch
              = tlF := by
            rw [← hitem]
            exact hec2
          have hpF : p ∈ emitRun false full px (.node ca ch cv cp cra crc ccs)
              sel (some siblings) (some i) := by
            rw [hec]
            exact List.mem_cons_of_mem _ hp
          have hpT := IH1 hsplit.1 p hpF
          rw [hecT] at hpT
          rcases List.mem_cons.1 hpT with hpT | hpT
          · exfalso
            have hkey : ch ∈ keysOf tlF := by
              rw [hpT] at hp
              exact List.mem_map_of_mem _ hp
            rw [← hec2'] at hkey
            have hsub := emitChildren_keys_sub false full px ccs
              it0.css_selector ccs 0 ch ch hkey
            have hndc := hsplit.1
            simp only [domHashes] at hndc
            exact (List.nodup_cons.1 hndc).1 hsub
          · exact List.mem_append_left _ (List.mem_cons_of_mem _ hpT)
    · exact List.mem_append_right _ (IH2 hsplit.2.1 p hp)

theorem emitRun_false_visible (full : Bool) (px : Int) (e : DomNode)
    (psel : Str) (sibs : Option (List DomNode)) (idx : Option Nat) :
    ∀ p ∈ emitRun false full px e psel sibs idx, p.2.is_visible = true := by
  obtain ⟨a, h, v, cp, ra, rc, cs⟩ := e
  intro p hp
  simp only [emitRun] at hp
  by_cases hg : (v = true ∨ false = true)
  · rw [if_neg (not_not_intro hg)] at hp
    rcases List.mem_cons.1 hp with hp | hp
    · rw [hp]
      show v = true
      rcases hg with hg | hg
      · exact hg
      · exact absurd hg Bool.false_ne_true
    · exact emitChildren_false_visible full px cs _ cs 0 h p hp
  · rw [if_pos hg] at hp
    exact absurd hp (List.not_mem_nil p)

theorem emitRun_false_sub_true (full : Bool) (px : Int) (e : DomNode)
    (psel : Str) (sibs : Option (List DomNode)) (idx : Option Nat)
    (hnd : (domHashes e).Nodup) :
    ∀ p ∈ emitRun false full px e psel sibs idx,
      p ∈ emitRun true full px e psel sibs idx := by
  obtain ⟨a, h, v, cp, ra, rc, cs⟩ := e
  intro p hp
  simp only [emitRun] at hp ⊢
  by_cases hg : (v = true ∨ false = true)
  · rw [if_neg (not_not_intro hg)] at hp
    rw [if_neg (by simp)]
    rcases List.mem_cons.1 hp with hp | hp
    · exact hp ▸ List.mem_cons_self _ _
    · refine List.mem_cons_of_mem _
        (emitChildren_false_sub_true full px cs _ cs 0 h ?_ p hp)
      simp only [domHashes] at hnd
      exact (List.nodup_cons.1 hnd).2
  · rw [if_pos hg] at hp
    exact absurd hp (List.not_mem_nil p)

theorem emitRun_true_complete (full : Bool) (px : Int) (e : DomNode)
    (psel : Str) (sibs : Option (List DomNode)) (idx : Option Nat) :
    ∀ x ∈ subNodes e,
      ∃ p ∈ emitRun true full px e psel sibs idx,
        p.1 = x.ehash ∧ p.2.id = x.ehash ∧ p.2.is_visible = x.visible := by
  obtain ⟨a, h, v, cp, ra, rc, cs⟩ := e
  intro x hx
  simp only [subNodes] at hx
  simp only [emitRun]
  rw [if_neg (by simp)]
  rcases List.mem_cons.1 hx with hx | hx
  · refine ⟨_, List.mem_cons_self _ _, ?_⟩
    rw [hx]
    exact ⟨rfl, rfl, rfl⟩
  · obtain ⟨p, hp, hprops⟩ := emitChildren_true_complete full px cs _ cs 0 h x hx
    exact ⟨p, List.mem_cons_of_mem _ hp, hprops⟩

/-- Claim C3 (corrected form): with invisible capture off every emitted
record is visible; with pairwise-distinct content hashes the records of
the flag-off run are a subset of the flag-on run's records, and the
flag-on run emits a record (with its actual visibility) for *every* node
of the tree — but the two runs' visible subsets need not be equal,
because a visible descendant of an invisible node is only reached when
the flag is on. -/
theorem claim_C3_amended (full_page_screenshot : Bool) (px : Int)
    (root : DomNode) (hnd : (domHashes root).Nodup) :
    (∀ it ∈ get_elements full_page_screenshot px false (some root),
      it.is_visible = true) ∧
    (∀ it ∈ get_elements full_page_screenshot px false (some root),
      it ∈ get_elements full_page_screenshot px true (some root)) ∧
    (∀ x ∈ subNodes root,
      ∃ it ∈ get_elements full_page_screenshot px true (some root),
        it.id = x.ehash ∧ it.is_visible = x.visible) := by
  have hfreshnil : ∀ h ∈ domHashes root, h ∉ keysOf ([] : StMap) :=
    fun h _ hc => absurd hc (List.not_mem_nil h)
  have hcf := traverse_dom_char false full_page_screenshot px root [] none
    none [] hnd hfreshnil
  have hct := traverse_dom_char true full_page_screenshot px root [] none
    none [] hnd hfreshnil
  have hof : get_elements full_page_screenshot px false (some root)
      = (emitRun false full_page_screenshot px root [] none none).map (·.2) := by
    simp only [get_elements]
    rw [hcf]
    rw [List.nil_append]
  have hot : get_elements full_page_screenshot px true (some root)
      = (emitRun true full_page_screenshot px root [] none none).map (·.2) := by
    simp only [get_elements]
    rw [hct]
    rw [List.nil_append]
  refine ⟨?_, ?_, ?_⟩
  · intro it hit
    rw [hof] at hit
    obtain ⟨p, hp, hpe⟩ := List.mem_map.1 hit
    rw [← hpe]
    exact emitRun_false_visible full_page_screenshot px root [] none none p hp
  · intro it hit
    rw [hof] at hit
    rw [hot]
    obtain ⟨p, hp, hpe⟩ := List.mem_map.1 hit
    exact hpe ▸ List.mem_map_of_mem _
      (emitRun_false_sub_true full_page_screenshot px root [] none none hnd
        p hp)
  · intro x hx
    obtain ⟨p, hp, _, h2, h3⟩ :=
      emitRun_true_complete full_page_screenshot px root [] none none x hx
    rw [hot]
    exact ⟨p.2, List.mem_map_of_mem _ hp, h2, h3⟩

/-- Claim C3, counterexample to the literal statement: in a tree whose
invisible node has a visible child, the flag-on run's visible records
include the grandchild, which the flag-off run never reaches — the
visible subsets of the two runs differ. -/
theorem claim_C3_counterexample :
    ∃ it ∈ (get_elements true 1 true (some exRoot)).filter (·.is_visible),
      it ∉ (get_elements true 1 false (some exRoot)).filter (·.is_visible) := by
  decide

/-- Claim C3, witness: flag-off output is all-visible, and the flag-on
run emits the invisible middle node with `is_visible = false`. -/
theorem claim_C3_witness :
    (∀ it ∈ get_elements true 1 false (some exRoot), it.is_visible = true) ∧
    (∃ it ∈ get_elements true 1 true (some exRoot),
      it.id = 2 ∧ it.is_visible = false) := by
  refine ⟨(claim_C3_amended true 1 exRoot (by decide)).1, ?_⟩
  have hm : exMid ∈ subNodes exRoot := by
    have hs : subNodes exRoot = [exRoot, exMid, exGrand] := rfl
    exact hs ▸ List.mem_cons_of_mem _ (List.mem_cons_self _ _)
  obtain ⟨it, hmem, h1, h2⟩ :=
    (claim_C3_amended true 1 exRoot (by decide)).2.2 exMid hm
  refine ⟨it, hmem, ?_, ?_⟩
  · rw [h1]
    rfl
  · rw [h2]
    rfl
